import Mathlib

/-!
Verification of the bounded MPSC inbox channel (`src/lib.rs` of the repository)
and of the scheduler ordering described in the specification.

The channel's shared state is embedded shallowly: the single atomic status word
becomes a `Nat` (a 64-bit `usize`, all wrapping arithmetic is taken modulo
`2 ^ 64` explicitly), the slot array becomes a function `Fin 8 → α`
(a `MaybeUninit` cell is a cell that always holds *some* value of type `α`,
possibly garbage), and the reference count becomes a `Nat`.  All executions
modelled here are single threaded and sequential: each atomic
read-modify-write of the source is one state update returning the previous
value, exactly in source order.  Waker bookkeeping (`wake_receiver`,
`add_waker`, `next_waker`, `register_waker`) has no effect on the channel
state or on the return values of the modelled operations and is not modelled.
-/

namespace Inbox

/-- `RECEIVER_ALIVE`: bit mask to mark the receiver as alive
(`1 << (size_of::<usize>() * 8 - 1)` for a 64-bit `usize`). -/
def RECEIVER_ALIVE : Nat := 1 <<< 63

/-- `MANAGER_ALIVE`: bit mask to mark the manager as alive. -/
def MANAGER_ALIVE : Nat := 1 <<< 62

/-- Modulus of wrapping 64-bit `usize` arithmetic (`fetch_add`/`fetch_sub` wrap). -/
def USIZE_MOD : Nat := 2 ^ 64

/-- Bitwise complement of `m` within a 64-bit `usize` (the `!` operator of the
source applied to a mask `m < 2 ^ 64`). -/
def usize_not (m : Nat) : Nat := (USIZE_MOD - 1) - m

/-- `SMALL_CAP`: the capacity of a small channel. -/
def SMALL_CAP : Nat := 8

/-- `STATUS_BITS`: number of status bits used per slot. -/
def STATUS_BITS : Nat := 2

/-- `STATUS_MASK = (1 << STATUS_BITS) - 1`. -/
def STATUS_MASK : Nat := (1 <<< STATUS_BITS) - 1

/-- Slot status `EMPTY = 0b00`. -/
def EMPTY : Nat := 0

/-- Slot status `TAKEN = 0b01`. -/
def TAKEN : Nat := 1

/-- Slot status `FILLED = 0b11`. -/
def FILLED : Nat := 3

/-- Slot status `READING = 0b10`. -/
def READING : Nat := 2

/-- `MARK_TAKEN = 0b01`: OR to go from EMPTY to TAKEN. -/
def MARK_TAKEN : Nat := 1

/-- `MARK_FILLED = 0b11`: OR to go from TAKEN to FILLED. -/
def MARK_FILLED : Nat := 3

/-- `MARK_READING = 0b01`: XOR to go from FILLED to READING. -/
def MARK_READING : Nat := 1

/-- `MARK_EMPTIED = 0b11`: AND with the complement to go to EMPTY. -/
def MARK_EMPTIED : Nat := 3

/-- `POS_BITS = 3`, with `2 ^ POS_BITS = SMALL_CAP`. -/
def POS_BITS : Nat := 3

/-- `POS_MASK = (1 << POS_BITS) - 1`. -/
def POS_MASK : Nat := (1 <<< POS_BITS) - 1

/-- `MARK_NEXT_POS = 1 << (STATUS_BITS * SMALL_CAP)`: added to the status word
to increase the receiver position by one. -/
def MARK_NEXT_POS : Nat := 1 <<< (STATUS_BITS * SMALL_CAP)

/-- `slot_status`: the `STATUS_BITS` bits for `slot` in `status`. -/
def slot_status (status slot : Nat) : Nat :=
  (status >>> (STATUS_BITS * slot)) &&& STATUS_MASK

/-- `has_status`: `slot` (in `status`) equals the `expected` status. -/
def has_status (status slot expected : Nat) : Bool :=
  slot_status status slot == expected

/-- `is_available`: `slot` in `status` is empty. -/
def is_available (status slot : Nat) : Bool :=
  has_status status slot EMPTY

/-- `is_filled`: `slot` in `status` is filled. -/
def is_filled (status slot : Nat) : Bool :=
  has_status status slot FILLED

/-- `mark_slot`: mask to transition `slot` using `transition`. -/
def mark_slot (slot transition : Nat) : Nat :=
  transition <<< (STATUS_BITS * slot)

/-- `receiver_pos`: the position of the receiver, in `0..SMALL_CAP`. -/
def receiver_pos (status : Nat) : Nat :=
  (status >>> (STATUS_BITS * SMALL_CAP)) &&& POS_MASK

/-! ### Canonical form of a status word after a single-slot transition

`field_write s i f` is `s` with the two status bits of slot `i` replaced by
`f`.  It is proof infrastructure only: the lemmas below show that each
atomic bit operation of the source produces a status word of this shape. -/

/-- `s` with the 2-bit field of slot `i` replaced by `f` (proof infrastructure). -/
def field_write (s i f : Nat) : Nat :=
  2 ^ (2 * i) * (4 * (s >>> (2 * i + 2)) + f) + s % 2 ^ (2 * i)

/-! ### The channel state and its operations (`Channel<T>` of the source) -/

/-- The shared `Channel<T>` state: the atomic `status` word, the slot array and
the atomic `ref_count`.  The waker fields (`sender_waker_head`,
`receiver_waker`, `receiver_needs_wakeup`) do not influence the data path and
are omitted. -/
structure Channel (α : Type) where
  status : Nat
  slots : Fin 8 → α
  ref_count : Nat

/-- `SendError` of the source, together with the `Ok` outcome of `try_send`
(`Result<(), SendError<T>>` flattened into one inductive). -/
inductive SendResult (α : Type) where
  | Ok : SendResult α
  | Full (v : α) : SendResult α
  | Disconnected (v : α) : SendResult α
deriving DecidableEq

/-- `RecvError` of the source, together with the `Ok` outcome of `try_recv`
(`Result<T, RecvError>` flattened into one inductive). -/
inductive RecvResult (α : Type) where
  | Ok (v : α) : RecvResult α
  | Empty : RecvResult α
  | Disconnected : RecvResult α
deriving DecidableEq

/-- `new_small`: a fresh channel; `Channel::new` sets `status = 0` and
`ref_count = RECEIVER_ALIVE | 1` (one sender, one receiver).  The
`MaybeUninit` slots start with arbitrary content, modelled by `default`. -/
def new_small (α : Type) [Inhabited α] : Channel α :=
  { status := 0, slots := fun _ => default, ref_count := RECEIVER_ALIVE ||| 1 }

/-- `Sender::is_connected`: the receiver or the manager is alive. -/
def sender_is_connected (ch : Channel α) : Bool :=
  ch.ref_count &&& (RECEIVER_ALIVE ||| MANAGER_ALIVE) != 0

/-- `Receiver::is_connected`: at least one sender is alive. -/
def receiver_is_connected (ch : Channel α) : Bool :=
  decide (ch.ref_count &&& usize_not (RECEIVER_ALIVE ||| MANAGER_ALIVE) > 0)

/-- `Sender::has_manager` / `Receiver::has_manager`. -/
def has_manager (ch : Channel α) : Bool :=
  ch.ref_count &&& MANAGER_ALIVE != 0

/-- The slot order scanned by `try_send` and `try_recv`:
`(0..SMALL_CAP).cycle().skip(start).take(SMALL_CAP)`.  For `start < SMALL_CAP`
(which `receiver_pos` always guarantees) this is
`start, start+1, …, 7, 0, …, start-1`, i.e. `(start + k) % 8` for `k < 8`. -/
def scan_slots (start : Nat) : List (Fin 8) :=
  (List.range SMALL_CAP).map fun k => ⟨(start + k) % 8, Nat.mod_lt _ (by omega)⟩

/-- The slot loop of `Sender::try_send`.  `status` is the sender's local
`status` variable; each `fetch_or` updates the channel and returns the
previous word, exactly as in the source (sequential execution). -/
def try_send_loop (ch : Channel α) (value : α) (status : Nat) :
    List (Fin 8) → Channel α × SendResult α
  | [] => (ch, .Full value)
  | slot :: rest =>
    if is_available status slot.val then
      -- `status = channel.status.fetch_or(mark_slot(slot, MARK_TAKEN), AcqRel)`
      let prev := ch.status
      let ch1 : Channel α := { ch with status := ch.status ||| mark_slot slot.val MARK_TAKEN }
      if is_available prev slot.val then
        -- `channel.slots[slot].write(value)`
        let ch2 : Channel α := { ch1 with slots := Function.update ch1.slots slot value }
        -- `channel.status.fetch_or(mark_slot(slot, MARK_FILLED), AcqRel)`;
        -- the conditional `wake_receiver` afterwards does not change the state
        let ch3 : Channel α := { ch2 with status := ch2.status ||| mark_slot slot.val MARK_FILLED }
        (ch3, .Ok)
      else
        try_send_loop ch1 value prev rest
    else
      try_send_loop ch value status rest

/-- `Sender::try_send`. -/
def try_send (ch : Channel α) (value : α) : Channel α × SendResult α :=
  if sender_is_connected ch then
    let status := ch.status
    let start := receiver_pos status
    try_send_loop ch value status (scan_slots start)
  else
    (ch, .Disconnected value)

/-- The slot loop of `Receiver::try_recv`.  Returns `some value` if a slot was
consumed.  `status` is the receiver's local `status` variable. -/
def try_recv_loop (ch : Channel α) (status : Nat) :
    List (Fin 8) → Channel α × Option α
  | [] => (ch, none)
  | slot :: rest =>
    if is_filled status slot.val then
      -- `status = channel.status.fetch_xor(mark_slot(slot, MARK_READING), AcqRel)`
      let prev := ch.status
      let ch1 : Channel α := { ch with status := ch.status ^^^ mark_slot slot.val MARK_READING }
      if is_filled prev slot.val then
        -- `channel.slots[slot].assume_init_read()`: copies the value out, the
        -- cell itself is left untouched
        let value := ch1.slots slot
        -- `channel.status.fetch_and(!mark_slot(slot, MARK_EMPTIED), AcqRel)`;
        -- waking one parked sender afterwards does not change the state
        let ch2 : Channel α :=
          { ch1 with status := ch1.status &&& usize_not (mark_slot slot.val MARK_EMPTIED) }
        (ch2, some value)
      else
        try_recv_loop ch1 prev rest
    else
      try_recv_loop ch status rest

/-- `Receiver::try_recv`.  Connectivity is checked **before** the slot scan;
the `fetch_add(MARK_NEXT_POS)` wraps on overflow and returns the previous
status word, which is the word that gets scanned. -/
def try_recv (ch : Channel α) : Channel α × RecvResult α :=
  let is_conn := receiver_is_connected ch
  let status := ch.status
  let ch0 : Channel α := { ch with status := (ch.status + MARK_NEXT_POS) % USIZE_MOD }
  let start := receiver_pos status
  match try_recv_loop ch0 status (scan_slots start) with
  | (ch1, some value) => (ch1, .Ok value)
  | (ch1, none) => (ch1, if is_conn then .Empty else .Disconnected)

/-- `Sender::clone` / `Receiver::new_sender` / `Manager::new_sender`:
`ref_count.fetch_add(1)` (wrapping). -/
def clone_sender (ch : Channel α) : Channel α :=
  { ch with ref_count := (ch.ref_count + 1) % USIZE_MOD }

/-- `Sender::drop`: `ref_count.fetch_sub(1)` (wrapping); deallocation and the
last-sender receiver wake-up do not change the modelled state. -/
def drop_sender (ch : Channel α) : Channel α :=
  { ch with ref_count := (ch.ref_count + (USIZE_MOD - 1)) % USIZE_MOD }

/-- `Receiver::drop`: `ref_count.fetch_and(!RECEIVER_ALIVE)`. -/
def drop_receiver (ch : Channel α) : Channel α :=
  { ch with ref_count := ch.ref_count &&& usize_not RECEIVER_ALIVE }

/-- `Manager::drop`: `ref_count.fetch_and(!MANAGER_ALIVE)`. -/
def drop_manager (ch : Channel α) : Channel α :=
  { ch with ref_count := ch.ref_count &&& usize_not MANAGER_ALIVE }

/-- `Manager::new_small_channel`: `new_small` plus
`ref_count.fetch_or(MANAGER_ALIVE)`. -/
def new_small_channel (α : Type) [Inhabited α] : Channel α :=
  { new_small α with ref_count := (new_small α).ref_count ||| MANAGER_ALIVE }

/-- Result of `Manager::new_receiver` (`Result<Receiver<T>, ReceiverConnected>`). -/
inductive NewReceiverResult where
  | Ok : NewReceiverResult
  | ReceiverConnected : NewReceiverResult
deriving DecidableEq

/-- `Manager::new_receiver`: `ref_count.fetch_or(RECEIVER_ALIVE)`; succeeds iff
the previous word had the `RECEIVER_ALIVE` bit clear. -/
def manager_new_receiver (ch : Channel α) : Channel α × NewReceiverResult :=
  let old_count := ch.ref_count
  let ch1 : Channel α := { ch with ref_count := ch.ref_count ||| RECEIVER_ALIVE }
  if old_count &&& RECEIVER_ALIVE == 0 then
    (ch1, .Ok)
  else
    (ch1, .ReceiverConnected)

/-! ### The `SendValue` future (`Sender::send`) -/

/-- The state of a `SendValue` future that matters for polling: its `value`
field (`Option<T>`).  The pinned `waker_node` only feeds the waker list and is
not modelled. -/
structure SendValue (α : Type) where
  value : Option α
deriving DecidableEq

/-- Outcome of one `SendValue::poll`: a panic (from `Option::expect`),
`Poll::Pending`, `Poll::Ready(Ok(()))` or `Poll::Ready(Err(v))`. -/
inductive PollResult (α : Type) where
  | Panicked (msg : String) : PollResult α
  | Pending : PollResult α
  | ReadyOk : PollResult α
  | ReadyErr (v : α) : PollResult α
deriving DecidableEq

/-- `Sender::send`: constructs the future with `value = Some(value)`. -/
def send (value : α) : SendValue α :=
  { value := some value }

/-- `SendValue::poll`: takes the stored value (panicking if already taken),
then tries `try_send`; on `Full` it registers its waker (no state effect
modelled) and retries `try_send` exactly once, storing the value back and
returning `Pending` if still `Full`. -/
def sendValue_poll (sv : SendValue α) (ch : Channel α) :
    PollResult α × SendValue α × Channel α :=
  match sv.value with
  | none => (.Panicked "SendValue polled after completion", sv, ch)
  | some value =>
    match try_send ch value with
    | (ch1, .Ok) => (.ReadyOk, { value := none }, ch1)
    | (ch1, .Full value1) =>
      -- `register_waker(ctx.waker())`, then the second `try_send`
      match try_send ch1 value1 with
      | (ch2, .Ok) => (.ReadyOk, { value := none }, ch2)
      | (ch2, .Full value2) => (.Pending, { value := some value2 }, ch2)
      | (ch2, .Disconnected value2) => (.ReadyErr value2, { value := none }, ch2)
    | (ch1, .Disconnected value1) => (.ReadyErr value1, { value := none }, ch1)

/-- Number of `try_send` attempts made by one `SendValue::poll` call (proof
instrumentation mirroring `sendValue_poll`). -/
def sendValue_poll_attempts (sv : SendValue α) (ch : Channel α) : Nat :=
  match sv.value with
  | none => 0
  | some value =>
    match try_send ch value with
    | (_, .Ok) => 1
    | (_, .Full _) => 2
    | (_, .Disconnected _) => 1

/-- The slot at offset `k` from receiver position `p` (proof infrastructure). -/
def slotIdx (p k : Nat) : Fin 8 :=
  ⟨(p + k) % 8, Nat.mod_lt _ (by omega)⟩

/-! ### The FIFO simulation invariant -/

/-- Coupling invariant between a channel state and the abstract queue `q` of
pending values: the filled slots are exactly the `q.length` slots starting at
the receiver position (in cursor order) and hold the values of `q`; all other
slots are empty. -/
structure ChanInv (ch : Channel α) (q : List α) : Prop where
  status_lt : ch.status < 2 ^ 64
  len_le : q.length ≤ 8
  filled : ∀ k, k < q.length →
    slot_status ch.status (slotIdx (receiver_pos ch.status) k).val = FILLED
  values : ∀ k, (hk : k < q.length) →
    ch.slots (slotIdx (receiver_pos ch.status) k) = q.get ⟨k, hk⟩
  empty : ∀ k, q.length ≤ k → k < 8 →
    slot_status ch.status (slotIdx (receiver_pos ch.status) k).val = EMPTY

/-- Run a list of `try_send` calls left to right, collecting results. -/
def run_sends (ch : Channel α) : List α → Channel α × List (SendResult α)
  | [] => (ch, [])
  | v :: vs =>
    let s1 := try_send ch v
    let s2 := run_sends s1.1 vs
    (s2.1, s1.2 :: s2.2)

/-- Run `n` `try_recv` calls, collecting results. -/
def run_recvs (ch : Channel α) : Nat → Channel α × List (RecvResult α)
  | 0 => (ch, [])
  | n + 1 =>
    let s1 := try_recv ch
    let s2 := run_recvs s1.1 n
    (s2.1, s1.2 :: s2.2)

/-- The sub-list of values whose `try_send` succeeded, in send order. -/
def accepted (ch : Channel α) : List α → List α
  | [] => []
  | v :: vs =>
    match try_send ch v with
    | (ch1, SendResult.Ok) => v :: accepted ch1 vs
    | (ch1, _) => accepted ch1 vs

/-! ### Arbitrary `try_send`/`try_recv` sequences and the FIFO refinement -/

/-- One operation on a channel: a `try_send` of a value or a `try_recv`. -/
inductive Op (α : Type) where
  | send (v : α) : Op α
  | recv : Op α
deriving DecidableEq

/-- The observable result of one operation. -/
inductive OpResult (α : Type) where
  | sendRes (r : SendResult α) : OpResult α
  | recvRes (r : RecvResult α) : OpResult α
deriving DecidableEq

/-- Run a sequence of operations on the channel, collecting all results. -/
def run_ops (ch : Channel α) : List (Op α) → Channel α × List (OpResult α)
  | [] => (ch, [])
  | Op.send v :: ops =>
    let s1 := try_send ch v
    let s2 := run_ops s1.1 ops
    (s2.1, OpResult.sendRes s1.2 :: s2.2)
  | Op.recv :: ops =>
    let s1 := try_recv ch
    let s2 := run_ops s1.1 ops
    (s2.1, OpResult.recvRes s1.2 :: s2.2)

/-- Modelled from the spec: a FIFO queue of capacity `SMALL_CAP = 8` — the
abstract model the channel is claimed to refine for single-producer
single-consumer, contention-free sequences ("the channel behaves as (refines)
a FIFO queue of capacity 8"). -/
def fifo_step (q : List α) : Op α → List α × OpResult α
  | Op.send v =>
    if q.length < 8 then (q ++ [v], OpResult.sendRes SendResult.Ok)
    else (q, OpResult.sendRes (SendResult.Full v))
  | Op.recv =>
    match q with
    | v :: rest => (rest, OpResult.recvRes (RecvResult.Ok v))
    | [] => ([], OpResult.recvRes RecvResult.Empty)

/-- Run a sequence of operations on the abstract FIFO queue. -/
def run_fifo (q : List α) : List (Op α) → List α × List (OpResult α)
  | [] => (q, [])
  | op :: ops =>
    let s1 := fifo_step q op
    let s2 := run_fifo s1.1 ops
    (s2.1, s1.2 :: s2.2)

/-- Values whose `try_send` returned `Ok` during a sequence of operations. -/
def sent_ok_values (ch : Channel α) : List (Op α) → List α
  | [] => []
  | Op.send v :: ops =>
    match try_send ch v with
    | (ch1, SendResult.Ok) => v :: sent_ok_values ch1 ops
    | (ch1, _) => sent_ok_values ch1 ops
  | Op.recv :: ops => sent_ok_values (try_recv ch).1 ops

/-- Values returned as `Ok v` by `try_recv` during a sequence of operations. -/
def recv_ok_values (ch : Channel α) : List (Op α) → List α
  | [] => []
  | Op.send v :: ops => recv_ok_values (try_send ch v).1 ops
  | Op.recv :: ops =>
    match try_recv ch with
    | (ch1, RecvResult.Ok v) => v :: recv_ok_values ch1 ops
    | (ch1, _) => recv_ok_values ch1 ops

end Inbox

namespace Sched

/-!
The process scheduler.  The scheduler implementation is not among the
provided sources — only its tests (`rt/src/scheduler/tests.rs`) are — so the
data model and `next_process` are modelled from the specification.
-/

/-- Modelled from the spec: the priority set {LOW, NORMAL, HIGH} (the
`Priority` type of the missing `spawn::options` module). -/
inductive Priority where
  | LOW : Priority
  | NORMAL : Priority
  | HIGH : Priority
deriving DecidableEq

/-- Modelled from the spec: the multiplier weighting accumulated runtime
("e.g., LOW=3, NORMAL=2, HIGH=1 as weights"); part of the missing scheduler
implementation. -/
def priority_multiplier : Priority → Nat
  | Priority.LOW => 3
  | Priority.NORMAL => 2
  | Priority.HIGH => 1

/-- Modelled from the spec: one scheduler entry, conceptually
`{ id, priority, accumulated_runtime }` (the `ProcessData` of the missing
scheduler implementation; the process body is irrelevant to ordering). -/
structure ProcessData where
  id : Nat
  priority : Priority
  runtime : Nat
deriving DecidableEq

/-- Modelled from the spec: `runtime * priority_multiplier`, the quantity the
scheduler minimises. -/
def weight (p : ProcessData) : Nat := p.runtime * priority_multiplier p.priority

/-- Modelled from the spec, exactly as the claim words the ordering rule:
`a < b` iff `a.runtime * priority_multiplier(a) < b.runtime *
priority_multiplier(b)`, equal weights compare by `a.id < b.id`. -/
def lt_claim (a b : ProcessData) : Bool :=
  decide (weight a < weight b) || (decide (weight a = weight b) && decide (a.id < b.id))

/-- Rank of a priority: HIGH runs before NORMAL before LOW. -/
def priority_rank : Priority → Nat
  | Priority.HIGH => 0
  | Priority.NORMAL => 1
  | Priority.LOW => 2

/-- The amended ordering: smallest weight first, ties broken by higher
priority, then by smaller id — the tie-break the repository's scheduler tests
(`next_process_order`, `scheduler_run_order`) require, since with all
runtimes 0 they expect the HIGH process first regardless of insertion
order. -/
def lt_amended (a b : ProcessData) : Bool :=
  decide (weight a < weight b) ||
  (decide (weight a = weight b) &&
    (decide (priority_rank a.priority < priority_rank b.priority) ||
     (decide (priority_rank a.priority = priority_rank b.priority) && decide (a.id < b.id))))

/-- Modelled from the spec: `next_process()` removes the smallest READY entry
according to the ordering `lt` and returns it together with the remaining
entries (the missing scheduler implementation keeps them in an ordered
structure; a list with minimum extraction is observationally the same). -/
def next_process (lt : ProcessData → ProcessData → Bool) :
    List ProcessData → Option (ProcessData × List ProcessData)
  | [] => none
  | p :: rest =>
    match next_process lt rest with
    | none => some (p, [])
    | some (q, rest2) => if lt q p then some (q, p :: rest2) else some (p, rest)

end Sched

namespace Inbox

/-! ### Arithmetic characterisations of the bit-level helpers -/

theorem slot_status_eq (s i : Nat) : slot_status s i = s / 2 ^ (2 * i) % 4 := by
  show (s >>> (2 * i)) &&& ((1 <<< 2) - 1) = s / 2 ^ (2 * i) % 4
  have h2 : (1 <<< 2 : Nat) - 1 = 2 ^ 2 - 1 := rfl
  rw [Nat.shiftRight_eq_div_pow, h2, Nat.and_pow_two_sub_one_eq_mod]

theorem receiver_pos_eq (s : Nat) : receiver_pos s = s / 2 ^ 16 % 8 := by
  show (s >>> 16) &&& ((1 <<< 3) - 1) = s / 2 ^ 16 % 8
  have h2 : (1 <<< 3 : Nat) - 1 = 2 ^ 3 - 1 := rfl
  rw [Nat.shiftRight_eq_div_pow, h2, Nat.and_pow_two_sub_one_eq_mod]

theorem mark_slot_eq (i t : Nat) : mark_slot i t = t * 2 ^ (2 * i) := by
  show t <<< (2 * i) = t * 2 ^ (2 * i)
  exact Nat.shiftLeft_eq t (2 * i)

theorem slot_status_lt (s i : Nat) : slot_status s i < 4 := by
  rw [slot_status_eq]; exact Nat.mod_lt _ (by omega)

theorem receiver_pos_lt (s : Nat) : receiver_pos s < 8 := by
  rw [receiver_pos_eq]; exact Nat.mod_lt _ (by omega)

/-! ### Bitwise / arithmetic bridge -/

theorem or_lt_two_pow {a b n : Nat} (ha : a < 2 ^ n) (hb : b < 2 ^ n) :
    a ||| b < 2 ^ n := by
  apply Nat.lt_pow_two_of_testBit
  intro i hi
  have ha' : a < 2 ^ i := Nat.lt_of_lt_of_le ha (Nat.pow_le_pow_right (by omega) hi)
  have hb' : b < 2 ^ i := Nat.lt_of_lt_of_le hb (Nat.pow_le_pow_right (by omega) hi)
  simp [Nat.testBit_lt_two_pow ha', Nat.testBit_lt_two_pow hb']

theorem xor_lt_two_pow {a b n : Nat} (ha : a < 2 ^ n) (hb : b < 2 ^ n) :
    a ^^^ b < 2 ^ n := by
  apply Nat.lt_pow_two_of_testBit
  intro i hi
  have ha' : a < 2 ^ i := Nat.lt_of_lt_of_le ha (Nat.pow_le_pow_right (by omega) hi)
  have hb' : b < 2 ^ i := Nat.lt_of_lt_of_le hb (Nat.pow_le_pow_right (by omega) hi)
  simp [Nat.testBit_lt_two_pow ha', Nat.testBit_lt_two_pow hb']

/-- Splitting a bitwise OR at bit position `n`. -/
theorem or_split (n s m : Nat) :
    s ||| m = 2 ^ n * (s >>> n ||| m >>> n) + (s % 2 ^ n ||| m % 2 ^ n) := by
  have hlow : s % 2 ^ n ||| m % 2 ^ n < 2 ^ n :=
    or_lt_two_pow (Nat.mod_lt _ (Nat.two_pow_pos n)) (Nat.mod_lt _ (Nat.two_pow_pos n))
  apply Nat.eq_of_testBit_eq
  intro j
  rw [Nat.testBit_mul_pow_two_add _ hlow]
  rcases Nat.lt_or_ge j n with h | h
  · simp [h, Nat.testBit_mod_two_pow]
  · have h' : ¬ j < n := Nat.not_lt.mpr h
    have hj : n + (j - n) = j := by omega
    simp [h', Nat.testBit_shiftRight, hj]

/-- Splitting a bitwise XOR at bit position `n`. -/
theorem xor_split (n s m : Nat) :
    s ^^^ m = 2 ^ n * (s >>> n ^^^ m >>> n) + (s % 2 ^ n ^^^ m % 2 ^ n) := by
  have hlow : s % 2 ^ n ^^^ m % 2 ^ n < 2 ^ n :=
    xor_lt_two_pow (Nat.mod_lt _ (Nat.two_pow_pos n)) (Nat.mod_lt _ (Nat.two_pow_pos n))
  apply Nat.eq_of_testBit_eq
  intro j
  rw [Nat.testBit_mul_pow_two_add _ hlow]
  rcases Nat.lt_or_ge j n with h | h
  · simp [h, Nat.testBit_mod_two_pow]
  · have h' : ¬ j < n := Nat.not_lt.mpr h
    have hj : n + (j - n) = j := by omega
    simp [h', Nat.testBit_shiftRight, hj]

/-- Splitting a bitwise AND at bit position `n`. -/
theorem and_split (n s m : Nat) :
    s &&& m = 2 ^ n * (s >>> n &&& m >>> n) + (s % 2 ^ n &&& m % 2 ^ n) := by
  have hlow : s % 2 ^ n &&& m % 2 ^ n < 2 ^ n :=
    Nat.lt_of_le_of_lt Nat.and_le_left (Nat.mod_lt _ (Nat.two_pow_pos n))
  apply Nat.eq_of_testBit_eq
  intro j
  rw [Nat.testBit_mul_pow_two_add _ hlow]
  rcases Nat.lt_or_ge j n with h | h
  · simp [h, Nat.testBit_mod_two_pow]
  · have h' : ¬ j < n := Nat.not_lt.mpr h
    have hj : n + (j - n) = j := by omega
    simp [h', Nat.testBit_shiftRight, hj]

theorem or_mark (s i t : Nat) (ht : t < 4) :
    s ||| mark_slot i t = field_write s i (slot_status s i ||| t) := by
  have hm1 : (t * 2 ^ (2 * i)) >>> (2 * i) = t := by
    rw [Nat.shiftRight_eq_div_pow]
    exact Nat.mul_div_cancel t (Nat.two_pow_pos _)
  have hm2 : (t * 2 ^ (2 * i)) % 2 ^ (2 * i) = 0 := Nat.mul_mod_left _ _
  rw [mark_slot_eq, or_split (2 * i) s (t * 2 ^ (2 * i)), hm1, hm2, Nat.or_zero]
  unfold field_write
  congr 1
  congr 1
  rw [or_split 2 (s >>> (2 * i)) t]
  have h1 : (s >>> (2 * i)) >>> 2 = s >>> (2 * i + 2) := (Nat.shiftRight_add s (2 * i) 2).symm
  have h2 : t >>> 2 = 0 := by
    rw [Nat.shiftRight_eq_div_pow]
    exact Nat.div_eq_of_lt ht
  have h3 : t % 2 ^ 2 = t := Nat.mod_eq_of_lt ht
  have h4 : (s >>> (2 * i)) % 2 ^ 2 = slot_status s i := by
    rw [slot_status_eq, Nat.shiftRight_eq_div_pow]
    norm_num
  rw [h1, h2, h3, h4, Nat.or_zero]
  norm_num

theorem xor_mark (s i t : Nat) (ht : t < 4) :
    s ^^^ mark_slot i t = field_write s i (slot_status s i ^^^ t) := by
  have hm1 : (t * 2 ^ (2 * i)) >>> (2 * i) = t := by
    rw [Nat.shiftRight_eq_div_pow]
    exact Nat.mul_div_cancel t (Nat.two_pow_pos _)
  have hm2 : (t * 2 ^ (2 * i)) % 2 ^ (2 * i) = 0 := Nat.mul_mod_left _ _
  rw [mark_slot_eq, xor_split (2 * i) s (t * 2 ^ (2 * i)), hm1, hm2, Nat.xor_zero]
  unfold field_write
  congr 1
  congr 1
  rw [xor_split 2 (s >>> (2 * i)) t]
  have h1 : (s >>> (2 * i)) >>> 2 = s >>> (2 * i + 2) := (Nat.shiftRight_add s (2 * i) 2).symm
  have h2 : t >>> 2 = 0 := by
    rw [Nat.shiftRight_eq_div_pow]
    exact Nat.div_eq_of_lt ht
  have h3 : t % 2 ^ 2 = t := Nat.mod_eq_of_lt ht
  have h4 : (s >>> (2 * i)) % 2 ^ 2 = slot_status s i := by
    rw [slot_status_eq, Nat.shiftRight_eq_div_pow]
    norm_num
  rw [h1, h2, h3, h4, Nat.xor_zero]
  norm_num

theorem div_two_pow_mul_add {n m r : Nat} (hr : r < 2 ^ n) :
    (2 ^ n * m + r) / 2 ^ n = m := by
  rw [Nat.mul_add_div (Nat.two_pow_pos n), Nat.div_eq_of_lt hr, Nat.add_zero]

theorem mod_two_pow_mul_add {n k m r : Nat} (hk : k ≤ n) :
    (2 ^ n * m + r) % 2 ^ k = r % 2 ^ k := by
  have h : 2 ^ n * m = 2 ^ (n - k) * m * 2 ^ k := by
    rw [Nat.mul_assoc, Nat.mul_comm m, ← Nat.mul_assoc, ← Nat.pow_add]
    congr 2
    omega
  rw [Nat.add_comm, h, Nat.add_mul_mod_self_right]

theorem and_mark_emptied (s i : Nat) (hs : s < 2 ^ 64) (hi : i < 8) :
    s &&& usize_not (mark_slot i MARK_EMPTIED) = field_write s i 0 := by
  have hN : usize_not (mark_slot i MARK_EMPTIED) =
      2 ^ (2 * i) * (2 ^ (64 - 2 * i) - 4) + (2 ^ (2 * i) - 1) := by
    show USIZE_MOD - 1 - mark_slot i 3 = _
    rw [mark_slot_eq]
    have h64 : (2 : Nat) ^ (2 * i) * 2 ^ (64 - 2 * i) = 2 ^ 64 := by
      rw [← Nat.pow_add]
      congr 1
      omega
    have hbig : (4 : Nat) ≤ 2 ^ (64 - 2 * i) := by
      calc (4 : Nat) = 2 ^ 2 := rfl
      _ ≤ 2 ^ (64 - 2 * i) := Nat.pow_le_pow_right (by omega) (by omega)
    have hpos : (1 : Nat) ≤ 2 ^ (2 * i) := Nat.one_le_two_pow
    have hab : 2 ^ (2 * i) * 4 ≤ 2 ^ 64 := by
      rw [← h64]
      exact Nat.mul_le_mul_left _ hbig
    show (2 : Nat) ^ 64 - 1 - 3 * 2 ^ (2 * i) = _
    rw [Nat.mul_sub_left_distrib, h64]
    omega
  rw [hN, and_split (2 * i) s _]
  have hhi : (2 ^ (2 * i) * (2 ^ (64 - 2 * i) - 4) + (2 ^ (2 * i) - 1)) >>> (2 * i) =
      2 ^ (64 - 2 * i) - 4 := by
    rw [Nat.shiftRight_eq_div_pow]
    exact div_two_pow_mul_add (by have := Nat.two_pow_pos (2 * i); omega)
  have hlo : (2 ^ (2 * i) * (2 ^ (64 - 2 * i) - 4) + (2 ^ (2 * i) - 1)) % 2 ^ (2 * i) =
      2 ^ (2 * i) - 1 := by
    rw [mod_two_pow_mul_add (Nat.le_refl _)]
    exact Nat.mod_eq_of_lt (by have := Nat.two_pow_pos (2 * i); omega)
  rw [hhi, hlo, Nat.and_pow_two_sub_one_eq_mod, Nat.mod_mod_of_dvd s (dvd_refl _)]
  unfold field_write
  congr 1
  congr 1
  rw [and_split 2 (s >>> (2 * i)) _]
  have h2a : (2 ^ (64 - 2 * i) - 4) >>> 2 = 2 ^ (62 - 2 * i) - 1 := by
    rw [Nat.shiftRight_eq_div_pow]
    have h1 : (2 : Nat) ^ (64 - 2 * i) = 2 ^ (62 - 2 * i) * 2 ^ 2 := by
      rw [← Nat.pow_add]
      congr 1
      omega
    rw [h1]
    have : (2 : Nat) ^ (62 - 2 * i) * 2 ^ 2 - 4 = (2 ^ (62 - 2 * i) - 1) * 2 ^ 2 := by
      rw [Nat.mul_sub_right_distrib, Nat.one_mul]
      norm_num
    rw [this]
    exact Nat.mul_div_cancel _ (by norm_num)
  have h2b : (2 ^ (64 - 2 * i) - 4) % 2 ^ 2 = 0 := by
    have h1 : (2 : Nat) ^ (64 - 2 * i) = 2 ^ (62 - 2 * i) * 4 := by
      rw [show (4 : Nat) = 2 ^ 2 from rfl, ← Nat.pow_add]
      congr 1
      omega
    have : (2 : Nat) ^ (64 - 2 * i) - 4 = (2 ^ (62 - 2 * i) - 1) * 4 := by
      rw [Nat.mul_sub_right_distrib, Nat.one_mul, h1]
    rw [this]
    exact Nat.mul_mod_left _ _
  rw [h2a, h2b, Nat.and_zero, Nat.add_zero, ← Nat.shiftRight_add,
    Nat.and_pow_two_sub_one_eq_mod]
  have hdiv : s >>> (2 * i + 2) < 2 ^ (62 - 2 * i) := by
    rw [Nat.shiftRight_eq_div_pow]
    rw [Nat.div_lt_iff_lt_mul (Nat.two_pow_pos _)]
    calc s < 2 ^ 64 := hs
    _ = 2 ^ (62 - 2 * i) * 2 ^ (2 * i + 2) := by
        rw [← Nat.pow_add]
        congr 1
        omega
  rw [Nat.mod_eq_of_lt hdiv]
  norm_num

theorem field_write_self {f : Nat} (s i : Nat) (hf : f < 4) :
    slot_status (field_write s i f) i = f := by
  unfold field_write
  rw [slot_status_eq, div_two_pow_mul_add (Nat.mod_lt _ (Nat.two_pow_pos _)),
    Nat.mul_add_mod, Nat.mod_eq_of_lt hf]

/-- The two status bits of slot `i` are the only simultaneous, deterministic
part of the status word changed by `field_write`. -/
theorem field_write_other {f : Nat} (s i j : Nat) (hf : f < 4) (hne : j ≠ i) :
    slot_status (field_write s i f) j = slot_status s j := by
  have hsplit : field_write s i f = 2 ^ (2 * i + 2) * (s >>> (2 * i + 2)) +
      (2 ^ (2 * i) * f + s % 2 ^ (2 * i)) := by
    have hp : (2 : Nat) ^ (2 * i + 2) = 2 ^ (2 * i) * 4 := by rw [Nat.pow_add]
    unfold field_write
    rw [hp]
    ring
  have hinner : 2 ^ (2 * i) * f + s % 2 ^ (2 * i) < 2 ^ (2 * i + 2) := by
    have h1 : s % 2 ^ (2 * i) < 2 ^ (2 * i) := Nat.mod_lt _ (Nat.two_pow_pos _)
    have h2 : 2 ^ (2 * i) * f + s % 2 ^ (2 * i) < 2 ^ (2 * i) * (f + 1) := by
      rw [Nat.left_distrib, Nat.mul_one]
      omega
    calc 2 ^ (2 * i) * f + s % 2 ^ (2 * i) < 2 ^ (2 * i) * (f + 1) := h2
    _ ≤ 2 ^ (2 * i) * 4 := Nat.mul_le_mul_left _ (by omega)
    _ = 2 ^ (2 * i + 2) := by rw [Nat.pow_add]
  rcases Nat.lt_or_ge j i with hj | hj
  · -- `j < i`: the field of `j` lives in the untouched low part `s % 2 ^ (2 * i)`
    have hk : 2 * j + 2 ≤ 2 * i := by omega
    rw [slot_status_eq, slot_status_eq, Nat.div_mod_eq_mod_mul_div, Nat.div_mod_eq_mod_mul_div]
    have hpow : (2 : Nat) ^ (2 * j) * 4 = 2 ^ (2 * j + 2) := by rw [Nat.pow_add]
    rw [hpow]
    congr 1
    unfold field_write
    rw [mod_two_pow_mul_add (by omega)]
    exact Nat.mod_mod_of_dvd s (Nat.pow_dvd_pow 2 hk)
  · -- `j > i`: the field of `j` lives in the untouched high part `s >>> (2 * i + 2)`
    have hj' : i < j := by omega
    have hk : 2 * i + 2 ≤ 2 * j := by omega
    rw [slot_status_eq, slot_status_eq]
    have hsplit2 : (2 : Nat) ^ (2 * j) = 2 ^ (2 * i + 2) * 2 ^ (2 * j - (2 * i + 2)) := by
      rw [← Nat.pow_add]
      congr 1
      omega
    rw [hsplit2, ← Nat.div_div_eq_div_mul, ← Nat.div_div_eq_div_mul]
    congr 2
    rw [hsplit, div_two_pow_mul_add hinner, Nat.shiftRight_eq_div_pow]

theorem field_write_pos {f : Nat} (s i : Nat) (hf : f < 4) (hi : i < 8) :
    receiver_pos (field_write s i f) = receiver_pos s := by
  have hsplit : field_write s i f = 2 ^ (2 * i + 2) * (s >>> (2 * i + 2)) +
      (2 ^ (2 * i) * f + s % 2 ^ (2 * i)) := by
    have hp : (2 : Nat) ^ (2 * i + 2) = 2 ^ (2 * i) * 4 := by rw [Nat.pow_add]
    unfold field_write
    rw [hp]
    ring
  have hinner : 2 ^ (2 * i) * f + s % 2 ^ (2 * i) < 2 ^ (2 * i + 2) := by
    have h1 : s % 2 ^ (2 * i) < 2 ^ (2 * i) := Nat.mod_lt _ (Nat.two_pow_pos _)
    have h2 : 2 ^ (2 * i) * f + s % 2 ^ (2 * i) < 2 ^ (2 * i) * (f + 1) := by
      rw [Nat.left_distrib, Nat.mul_one]
      omega
    calc 2 ^ (2 * i) * f + s % 2 ^ (2 * i) < 2 ^ (2 * i) * (f + 1) := h2
    _ ≤ 2 ^ (2 * i) * 4 := Nat.mul_le_mul_left _ (by omega)
    _ = 2 ^ (2 * i + 2) := by rw [Nat.pow_add]
  rw [receiver_pos_eq, receiver_pos_eq]
  have hsplit16 : (2 : Nat) ^ 16 = 2 ^ (2 * i + 2) * 2 ^ (16 - (2 * i + 2)) := by
    rw [← Nat.pow_add]
    congr 1
    omega
  rw [hsplit16, ← Nat.div_div_eq_div_mul, ← Nat.div_div_eq_div_mul]
  congr 2
  rw [hsplit, div_two_pow_mul_add hinner, Nat.shiftRight_eq_div_pow]

theorem field_write_lt {f : Nat} (s i : Nat) (hf : f < 4) (hi : i < 8) (hs : s < 2 ^ 64) :
    field_write s i f < 2 ^ 64 := by
  have hsplit : field_write s i f = 2 ^ (2 * i + 2) * (s >>> (2 * i + 2)) +
      (2 ^ (2 * i) * f + s % 2 ^ (2 * i)) := by
    have hp : (2 : Nat) ^ (2 * i + 2) = 2 ^ (2 * i) * 4 := by rw [Nat.pow_add]
    unfold field_write
    rw [hp]
    ring
  have hinner : 2 ^ (2 * i) * f + s % 2 ^ (2 * i) < 2 ^ (2 * i + 2) := by
    have h1 : s % 2 ^ (2 * i) < 2 ^ (2 * i) := Nat.mod_lt _ (Nat.two_pow_pos _)
    have h2 : 2 ^ (2 * i) * f + s % 2 ^ (2 * i) < 2 ^ (2 * i) * (f + 1) := by
      rw [Nat.left_distrib, Nat.mul_one]
      omega
    calc 2 ^ (2 * i) * f + s % 2 ^ (2 * i) < 2 ^ (2 * i) * (f + 1) := h2
    _ ≤ 2 ^ (2 * i) * 4 := Nat.mul_le_mul_left _ (by omega)
    _ = 2 ^ (2 * i + 2) := by rw [Nat.pow_add]
  have hhi : s >>> (2 * i + 2) < 2 ^ (62 - 2 * i) := by
    rw [Nat.shiftRight_eq_div_pow, Nat.div_lt_iff_lt_mul (Nat.two_pow_pos _)]
    calc s < 2 ^ 64 := hs
    _ = 2 ^ (62 - 2 * i) * 2 ^ (2 * i + 2) := by
        rw [← Nat.pow_add]
        congr 1
        omega
  rw [hsplit]
  calc 2 ^ (2 * i + 2) * (s >>> (2 * i + 2)) + (2 ^ (2 * i) * f + s % 2 ^ (2 * i))
      < 2 ^ (2 * i + 2) * (s >>> (2 * i + 2)) + 2 ^ (2 * i + 2) := by omega
  _ = 2 ^ (2 * i + 2) * (s >>> (2 * i + 2) + 1) := by rw [Nat.left_distrib, Nat.mul_one]
  _ ≤ 2 ^ (2 * i + 2) * 2 ^ (62 - 2 * i) := Nat.mul_le_mul_left _ (by omega)
  _ = 2 ^ 64 := by
      rw [← Nat.pow_add]
      congr 1
      omega

/-- `slot_status` only depends on the low 16 bits of the status word. -/
theorem slot_status_mod16 (s j : Nat) (hj : j < 8) :
    slot_status s j = slot_status (s % 2 ^ 16) j := by
  rw [slot_status_eq, slot_status_eq, Nat.div_mod_eq_mod_mul_div, Nat.div_mod_eq_mod_mul_div]
  have hpow : (2 : Nat) ^ (2 * j) * 4 = 2 ^ (2 * j + 2) := by rw [Nat.pow_add]
  rw [hpow]
  congr 1
  exact (Nat.mod_mod_of_dvd s (Nat.pow_dvd_pow 2 (by omega))).symm

/-! ### Helper lemmas about the scan order and the slot predicates -/

theorem is_available_iff {s j : Nat} : is_available s j = true ↔ slot_status s j = EMPTY := by
  simp [is_available, has_status]

theorem is_available_false_iff {s j : Nat} :
    is_available s j = false ↔ slot_status s j ≠ EMPTY := by
  simp [is_available, has_status]

theorem is_filled_iff {s j : Nat} : is_filled s j = true ↔ slot_status s j = FILLED := by
  simp [is_filled, has_status]

theorem is_filled_false_iff {s j : Nat} :
    is_filled s j = false ↔ slot_status s j ≠ FILLED := by
  simp [is_filled, has_status]

theorem scan_slots_eq_map (start : Nat) :
    scan_slots start = (List.range 8).map (slotIdx start) := rfl

theorem slotIdx_inj {p k k' : Nat} (hk : k < 8) (hk' : k' < 8) (h : slotIdx p k = slotIdx p k') :
    k = k' := by
  have hv : (p + k) % 8 = (p + k') % 8 := congrArg Fin.val h
  omega

theorem slotIdx_shift (p k : Nat) : slotIdx ((p + 1) % 8) k = slotIdx p (k + 1) := by
  apply Fin.ext
  show ((p + 1) % 8 + k) % 8 = (p + (k + 1)) % 8
  omega

theorem slotIdx_wrap (p : Nat) : slotIdx p 8 = slotIdx p 0 := by
  apply Fin.ext
  show (p + 8) % 8 = (p + 0) % 8
  omega

/-- Decomposition of the scan order at offset `n`. -/
theorem scan_slots_split (start n : Nat) (hn : n < 8) :
    ∃ l2 : List (Fin 8),
      scan_slots start = ((List.range n).map (slotIdx start)) ++ slotIdx start n :: l2 ∧
      ∀ sl ∈ l2, ∃ k, n < k ∧ k < 8 ∧ sl = slotIdx start k := by
  have h8 : 8 = n + (7 - n + 1) := by omega
  have hr : List.range 8 = List.range n ++ (List.range (7 - n + 1)).map (n + ·) := by
    rw [h8]
    exact List.range_add n (7 - n + 1)
  have hr2 : List.range (7 - n + 1) = 0 :: (List.range (7 - n)).map Nat.succ :=
    List.range_succ_eq_map (7 - n)
  refine ⟨((List.range (7 - n)).map fun j => slotIdx start (n + (j + 1))), ?_, ?_⟩
  · rw [scan_slots_eq_map, hr, List.map_append, hr2]
    simp only [List.map_cons, List.map_map, Function.comp, Nat.add_zero, Nat.succ_eq_add_one]
    congr 2
  · intro sl hsl
    rcases List.mem_map.mp hsl with ⟨j, hj, rfl⟩
    have hj' : j < 7 - n := List.mem_range.mp hj
    exact ⟨n + (j + 1), by omega, by omega, rfl⟩

/-- Every slot of the scan order is `slotIdx start k` for some `k < 8`. -/
theorem scan_slots_mem (start : Nat) {sl : Fin 8} (h : sl ∈ scan_slots start) :
    ∃ k, k < 8 ∧ sl = slotIdx start k := by
  rw [scan_slots_eq_map] at h
  rcases List.mem_map.mp h with ⟨k, hk, rfl⟩
  exact ⟨k, List.mem_range.mp hk, rfl⟩

/-! ### Behaviour of the send and receive slot loops -/

theorem try_send_loop_none {α} (ch : Channel α) (value : α) (status : Nat)
    (l : List (Fin 8)) (h : ∀ sl ∈ l, is_available status sl.val = false) :
    try_send_loop ch value status l = (ch, .Full value) := by
  induction l with
  | nil => rfl
  | cons slot rest ih =>
    have hslot : is_available status slot.val = false := h slot (List.mem_cons_self _ _)
    simp only [try_send_loop, hslot, Bool.false_eq_true, if_false]
    exact ih fun sl hsl => h sl (List.mem_cons_of_mem _ hsl)

theorem try_send_loop_found {α} (value : α) (slot : Fin 8) (l1 l2 : List (Fin 8)) :
    ∀ (ch : Channel α) (status : Nat), status = ch.status →
    (∀ sl ∈ l1, is_available status sl.val = false) →
    is_available status slot.val = true →
    try_send_loop ch value status (l1 ++ slot :: l2) =
      ({ status := (ch.status ||| mark_slot slot.val MARK_TAKEN) ||| mark_slot slot.val MARK_FILLED,
         slots := Function.update ch.slots slot value,
         ref_count := ch.ref_count }, .Ok) := by
  induction l1 with
  | nil =>
    intro ch status hs hall hav
    subst hs
    simp only [List.nil_append, try_send_loop, hav, if_true]
  | cons hd tl ih =>
    intro ch status hs hall hav
    have hhd : is_available status hd.val = false := hall hd (List.mem_cons_self _ _)
    simp only [List.cons_append, try_send_loop, hhd, Bool.false_eq_true, if_false]
    exact ih ch status hs (fun sl hsl => hall sl (List.mem_cons_of_mem _ hsl)) hav

theorem try_recv_loop_none {α} (ch : Channel α) (status : Nat)
    (l : List (Fin 8)) (h : ∀ sl ∈ l, is_filled status sl.val = false) :
    try_recv_loop ch status l = (ch, none) := by
  induction l with
  | nil => rfl
  | cons slot rest ih =>
    have hslot : is_filled status slot.val = false := h slot (List.mem_cons_self _ _)
    simp only [try_recv_loop, hslot, Bool.false_eq_true, if_false]
    exact ih fun sl hsl => h sl (List.mem_cons_of_mem _ hsl)

theorem try_recv_loop_found {α} (slot : Fin 8) (l1 l2 : List (Fin 8)) :
    ∀ (ch : Channel α) (status : Nat),
    (∀ sl ∈ l1, is_filled status sl.val = false) →
    is_filled status slot.val = true →
    is_filled ch.status slot.val = true →
    try_recv_loop ch status (l1 ++ slot :: l2) =
      ({ status := (ch.status ^^^ mark_slot slot.val MARK_READING) &&&
           usize_not (mark_slot slot.val MARK_EMPTIED),
         slots := ch.slots,
         ref_count := ch.ref_count }, some (ch.slots slot)) := by
  induction l1 with
  | nil =>
    intro ch status hall hfl hsync
    simp only [List.nil_append, try_recv_loop, hfl, hsync, if_true]
  | cons hd tl ih =>
    intro ch status hall hfl hsync
    have hhd : is_filled status hd.val = false := hall hd (List.mem_cons_self _ _)
    simp only [List.cons_append, try_recv_loop, hhd, Bool.false_eq_true, if_false]
    exact ih ch status (fun sl hsl => hall sl (List.mem_cons_of_mem _ hsl)) hfl hsync

/-- Effect of the `fetch_add(MARK_NEXT_POS)` of `try_recv` on the status word:
the cursor advances by one modulo 8 and the low 16 slot-status bits are
untouched, even when the wrapping addition overflows. -/
theorem status_add_next_pos (s : Nat) (_hs : s < 2 ^ 64) :
    receiver_pos ((s + MARK_NEXT_POS) % USIZE_MOD) = (receiver_pos s + 1) % 8 ∧
    ((s + MARK_NEXT_POS) % USIZE_MOD) % 2 ^ 16 = s % 2 ^ 16 ∧
    (s + MARK_NEXT_POS) % USIZE_MOD < 2 ^ 64 := by
  have hm : MARK_NEXT_POS = 2 ^ 16 := by decide
  have hu : USIZE_MOD = 2 ^ 64 := rfl
  have h16 : (2 : Nat) ^ 16 = 65536 := by norm_num
  have h64 : (2 : Nat) ^ 64 = 18446744073709551616 := by norm_num
  rw [hm, hu, receiver_pos_eq, receiver_pos_eq, h16, h64]
  refine ⟨by omega, by omega, by omega⟩

theorem send_disconnected {α} (ch : Channel α) (v : α)
    (h : sender_is_connected ch = false) :
    try_send ch v = (ch, .Disconnected v) := by
  unfold try_send
  rw [h]
  simp

theorem send_full_of_inv {α} {ch : Channel α} {q : List α} (v : α)
    (hInv : ChanInv ch q) (hconn : sender_is_connected ch = true) (hlen : q.length = 8) :
    try_send ch v = (ch, .Full v) := by
  unfold try_send
  rw [hconn]
  simp only [if_true]
  apply try_send_loop_none
  intro sl hsl
  rcases scan_slots_mem _ hsl with ⟨k, hk, rfl⟩
  rw [is_available_false_iff, hInv.filled k (by omega)]
  decide

theorem send_ok_of_inv {α} {ch : Channel α} {q : List α} (v : α)
    (hInv : ChanInv ch q) (hconn : sender_is_connected ch = true) (hlen : q.length < 8) :
    (try_send ch v).2 = SendResult.Ok ∧
    ChanInv (try_send ch v).1 (q ++ [v]) ∧
    (try_send ch v).1.ref_count = ch.ref_count ∧
    receiver_pos (try_send ch v).1.status = receiver_pos ch.status := by
  obtain ⟨l2, hscan, hl2⟩ := scan_slots_split (receiver_pos ch.status) q.length (by omega)
  have hall : ∀ sl ∈ (List.range q.length).map (slotIdx (receiver_pos ch.status)),
      is_available ch.status sl.val = false := by
    intro sl hsl
    rcases List.mem_map.mp hsl with ⟨k, hk, rfl⟩
    have hk' : k < q.length := List.mem_range.mp hk
    rw [is_available_false_iff, hInv.filled k hk']
    decide
  have hav : is_available ch.status (slotIdx (receiver_pos ch.status) q.length).val = true := by
    rw [is_available_iff]
    exact hInv.empty q.length (Nat.le_refl _) (by omega)
  have htry : try_send ch v =
      ({ status := (ch.status ||| mark_slot (slotIdx (receiver_pos ch.status) q.length).val
            MARK_TAKEN) ||| mark_slot (slotIdx (receiver_pos ch.status) q.length).val MARK_FILLED,
         slots := Function.update ch.slots (slotIdx (receiver_pos ch.status) q.length) v,
         ref_count := ch.ref_count }, .Ok) := by
    unfold try_send
    rw [hconn]
    simp only [if_true]
    rw [hscan]
    exact try_send_loop_found v _ _ l2 ch ch.status rfl hall hav
  set i : Fin 8 := slotIdx (receiver_pos ch.status) q.length with hi
  have hfe : slot_status ch.status i.val = EMPTY := is_available_iff.mp hav
  have h1 : ch.status ||| mark_slot i.val MARK_TAKEN = field_write ch.status i.val 1 := by
    have hv1 : EMPTY ||| MARK_TAKEN = 1 := by decide
    rw [or_mark ch.status i.val MARK_TAKEN (by decide), hfe, hv1]
  have h2 : slot_status (field_write ch.status i.val 1) i.val = 1 :=
    field_write_self _ _ (by norm_num)
  have h3 : field_write ch.status i.val 1 ||| mark_slot i.val MARK_FILLED =
      field_write (field_write ch.status i.val 1) i.val 3 := by
    have hv2 : (1 : Nat) ||| MARK_FILLED = 3 := by decide
    rw [or_mark _ i.val MARK_FILLED (by decide), h2, hv2]
  have hilt : i.val < 8 := i.isLt
  have hS2lt : field_write (field_write ch.status i.val 1) i.val 3 < 2 ^ 64 :=
    field_write_lt _ _ (by norm_num) hilt (field_write_lt _ _ (by norm_num) hilt hInv.status_lt)
  have hS2pos : receiver_pos (field_write (field_write ch.status i.val 1) i.val 3) =
      receiver_pos ch.status := by
    rw [field_write_pos _ _ (by norm_num) hilt, field_write_pos _ _ (by norm_num) hilt]
  have hS2self : slot_status (field_write (field_write ch.status i.val 1) i.val 3) i.val = 3 :=
    field_write_self _ _ (by norm_num)
  have hS2other : ∀ j, j ≠ i.val →
      slot_status (field_write (field_write ch.status i.val 1) i.val 3) j =
      slot_status ch.status j := by
    intro j hj
    rw [field_write_other _ _ _ (by norm_num) hj, field_write_other _ _ _ (by norm_num) hj]
  have hne : ∀ k, k < 8 → k ≠ q.length → slotIdx (receiver_pos ch.status) k ≠ i := by
    intro k hk hkne heq
    exact hkne (slotIdx_inj hk (by omega) heq)
  rw [htry, h1, h3]
  dsimp only
  refine ⟨rfl, ?_, rfl, hS2pos⟩
  refine ⟨hS2lt, by simp only [List.length_append, List.length_cons, List.length_nil]; omega,
    ?_, ?_, ?_⟩
  · -- filled
    intro k hk
    dsimp only at hk ⊢
    rw [hS2pos]
    simp only [List.length_append, List.length_cons, List.length_nil] at hk
    rcases Nat.lt_or_ge k q.length with hk' | hk'
    · rw [hS2other _ (fun hv => hne k (by omega) (by omega) (Fin.ext hv))]
      exact hInv.filled k hk'
    · have hkq : k = q.length := by omega
      subst hkq
      exact hS2self
  · -- values
    intro k hk
    dsimp only at hk ⊢
    rw [hS2pos]
    simp only [List.length_append, List.length_cons, List.length_nil] at hk
    rcases Nat.lt_or_ge k q.length with hk' | hk'
    · have hneq : slotIdx (receiver_pos ch.status) k ≠ i := hne k (by omega) (by omega)
      rw [Function.update_noteq hneq]
      rw [hInv.values k hk']
      exact (List.get_append k hk').symm
    · have hkq : k = q.length := by omega
      subst hkq
      rw [Function.update_same]
      have hlast : (q ++ [v]).get ⟨q.length, by simp⟩ = v := by
        rw [List.get_eq_getElem]
        exact List.getElem_concat_length q v q.length rfl (by simp)
      exact hlast.symm
  · -- empty
    intro k hk hk8
    dsimp only at hk ⊢
    rw [hS2pos]
    simp only [List.length_append, List.length_cons, List.length_nil] at hk
    rw [hS2other _ (fun hv => hne k hk8 (by omega) (Fin.ext hv))]
    exact hInv.empty k (by omega) hk8

/-- Every slot index is reached by the scan starting at any position. -/
theorem slotIdx_surj (p : Nat) (j : Fin 8) : ∃ k, k < 8 ∧ j = slotIdx p k := by
  refine ⟨(j.val + 8 - p % 8) % 8, by omega, ?_⟩
  apply Fin.ext
  show j.val = (p + (j.val + 8 - p % 8) % 8) % 8
  have hj : j.val < 8 := j.isLt
  omega

theorem recv_none_of_inv {α} {ch : Channel α} (hInv : ChanInv ch ([] : List α)) :
    try_recv ch = (({ ch with status := (ch.status + MARK_NEXT_POS) % USIZE_MOD } : Channel α),
      if receiver_is_connected ch then RecvResult.Empty else RecvResult.Disconnected) ∧
    ChanInv ({ ch with status := (ch.status + MARK_NEXT_POS) % USIZE_MOD } : Channel α)
      ([] : List α) := by
  obtain ⟨hpos, hlow, hlt⟩ := status_add_next_pos ch.status hInv.status_lt
  have hstat : ∀ j, j < 8 →
      slot_status ((ch.status + MARK_NEXT_POS) % USIZE_MOD) j = slot_status ch.status j := by
    intro j hj
    rw [slot_status_mod16 _ j hj, hlow, ← slot_status_mod16 _ j hj]
  have hempty_all : ∀ sl ∈ scan_slots (receiver_pos ch.status),
      is_filled ch.status sl.val = false := by
    intro sl hsl
    rcases scan_slots_mem _ hsl with ⟨k, hk, rfl⟩
    rw [is_filled_false_iff, hInv.empty k (by simp) hk]
    decide
  constructor
  · unfold try_recv
    dsimp only
    rw [try_recv_loop_none _ _ _ hempty_all]
  · refine ⟨hlt, by simp, by simp, by simp, ?_⟩
    intro k hk hk8
    rcases slotIdx_surj (receiver_pos ch.status)
      (slotIdx (receiver_pos ((ch.status + MARK_NEXT_POS) % USIZE_MOD)) k) with ⟨m, hm, hmeq⟩
    show slot_status ((ch.status + MARK_NEXT_POS) % USIZE_MOD) _ = EMPTY
    rw [hstat _ (Fin.isLt _), hmeq]
    exact hInv.empty m (by simp) hm

theorem recv_ok_of_inv {α} {ch : Channel α} {v : α} {q : List α} (hInv : ChanInv ch (v :: q)) :
    (try_recv ch).2 = RecvResult.Ok v ∧
    ChanInv (try_recv ch).1 q ∧
    (try_recv ch).1.ref_count = ch.ref_count ∧
    (try_recv ch).1.slots = ch.slots ∧
    receiver_pos (try_recv ch).1.status = (receiver_pos ch.status + 1) % 8 := by
  obtain ⟨hpos, hlow, hlt⟩ := status_add_next_pos ch.status hInv.status_lt
  have hqlen : q.length ≤ 7 := by
    have := hInv.len_le
    simp only [List.length_cons] at this
    omega
  have hstat : ∀ j, j < 8 →
      slot_status ((ch.status + MARK_NEXT_POS) % USIZE_MOD) j = slot_status ch.status j := by
    intro j hj
    rw [slot_status_mod16 _ j hj, hlow, ← slot_status_mod16 _ j hj]
  have hfl : is_filled ch.status (slotIdx (receiver_pos ch.status) 0).val = true := by
    rw [is_filled_iff]
    exact hInv.filled 0 (by simp)
  have hsync : is_filled ((ch.status + MARK_NEXT_POS) % USIZE_MOD)
      (slotIdx (receiver_pos ch.status) 0).val = true := by
    rw [is_filled_iff, hstat _ (Fin.isLt _), ← is_filled_iff]
    exact hfl
  obtain ⟨l2, hscan, hl2⟩ := scan_slots_split (receiver_pos ch.status) 0 (by omega)
  simp only [List.range_zero, List.map_nil, List.nil_append] at hscan
  have hrun := try_recv_loop_found (slotIdx (receiver_pos ch.status) 0) [] l2
    ({ ch with status := (ch.status + MARK_NEXT_POS) % USIZE_MOD } : Channel α)
    ch.status (by simp) hfl hsync
  simp only [List.nil_append] at hrun
  have htry : try_recv ch =
      (({ status := (((ch.status + MARK_NEXT_POS) % USIZE_MOD) ^^^
            mark_slot (slotIdx (receiver_pos ch.status) 0).val MARK_READING) &&&
            usize_not (mark_slot (slotIdx (receiver_pos ch.status) 0).val MARK_EMPTIED),
          slots := ch.slots, ref_count := ch.ref_count } : Channel α),
        RecvResult.Ok (ch.slots (slotIdx (receiver_pos ch.status) 0))) := by
    unfold try_recv
    dsimp only
    rw [hscan, hrun]
  have hvz : ch.slots (slotIdx (receiver_pos ch.status) 0) = v := hInv.values 0 (by simp)
  have hfz : slot_status ((ch.status + MARK_NEXT_POS) % USIZE_MOD)
      (slotIdx (receiver_pos ch.status) 0).val = FILLED := by
    rw [hstat _ (Fin.isLt _)]
    exact hInv.filled 0 (by simp)
  have hilt : (slotIdx (receiver_pos ch.status) 0).val < 8 := Fin.isLt _
  have hX1 : ((ch.status + MARK_NEXT_POS) % USIZE_MOD) ^^^
      mark_slot (slotIdx (receiver_pos ch.status) 0).val MARK_READING =
      field_write ((ch.status + MARK_NEXT_POS) % USIZE_MOD)
        (slotIdx (receiver_pos ch.status) 0).val 2 := by
    have hv1 : FILLED ^^^ MARK_READING = 2 := by decide
    rw [xor_mark _ _ MARK_READING (by decide), hfz, hv1]
  have hX1lt : field_write ((ch.status + MARK_NEXT_POS) % USIZE_MOD)
      (slotIdx (receiver_pos ch.status) 0).val 2 < 2 ^ 64 :=
    field_write_lt _ _ (by norm_num) hilt hlt
  have hX2 : field_write ((ch.status + MARK_NEXT_POS) % USIZE_MOD)
      (slotIdx (receiver_pos ch.status) 0).val 2 &&&
      usize_not (mark_slot (slotIdx (receiver_pos ch.status) 0).val MARK_EMPTIED) =
      field_write (field_write ((ch.status + MARK_NEXT_POS) % USIZE_MOD)
        (slotIdx (receiver_pos ch.status) 0).val 2)
        (slotIdx (receiver_pos ch.status) 0).val 0 :=
    and_mark_emptied _ _ hX1lt hilt
  set i : Fin 8 := slotIdx (receiver_pos ch.status) 0 with hidef
  set S1 : Nat := field_write ((ch.status + MARK_NEXT_POS) % USIZE_MOD) i.val 2 with hS1def
  set S2 : Nat := field_write S1 i.val 0 with hS2def
  have hS2lt : S2 < 2 ^ 64 := field_write_lt _ _ (by norm_num) hilt hX1lt
  have hS2pos : receiver_pos S2 = (receiver_pos ch.status + 1) % 8 := by
    rw [hS2def, field_write_pos _ _ (by norm_num) hilt, hS1def,
      field_write_pos _ _ (by norm_num) hilt, hpos]
  have hS2self : slot_status S2 i.val = 0 := field_write_self _ _ (by norm_num)
  have hS2other : ∀ j, j < 8 → j ≠ i.val → slot_status S2 j = slot_status ch.status j := by
    intro j hj hne
    rw [hS2def, field_write_other _ _ _ (by norm_num) hne, hS1def,
      field_write_other _ _ _ (by norm_num) hne, hstat j hj]
  rw [htry, hX1, hX2]
  dsimp only
  refine ⟨by rw [hvz], ?_, rfl, rfl, hS2pos⟩
  refine ⟨hS2lt, by omega, ?_, ?_, ?_⟩
  · -- filled
    intro k hk
    dsimp only at hk ⊢
    rw [hS2pos, slotIdx_shift]
    have hne : slotIdx (receiver_pos ch.status) (k + 1) ≠ i := by
      rw [hidef]
      intro heq
      have := slotIdx_inj (by omega) (by omega) heq
      omega
    rw [hS2other _ (Fin.isLt _) (fun hv => hne (Fin.ext hv))]
    exact hInv.filled (k + 1) (by simp; omega)
  · -- values
    intro k hk
    dsimp only at hk ⊢
    rw [hS2pos, slotIdx_shift]
    have hval := hInv.values (k + 1) (by simp; omega)
    rw [hval]
    simp
  · -- empty
    intro k hk hk8
    dsimp only at hk ⊢
    rw [hS2pos, slotIdx_shift]
    rcases Nat.lt_or_ge (k + 1) 8 with hk1 | hk1
    · have hne : slotIdx (receiver_pos ch.status) (k + 1) ≠ i := by
        rw [hidef]
        intro heq
        have := slotIdx_inj (by omega) (by omega) heq
        omega
      rw [hS2other _ (Fin.isLt _) (fun hv => hne (Fin.ext hv))]
      exact hInv.empty (k + 1) (by simp; omega) hk1
    · have hk7 : k = 7 := by omega
      subst hk7
      rw [slotIdx_wrap]
      exact hS2self

/-! ### Sequential runners over the channel -/

/-- Connectivity of a sender only depends on the reference count. -/
theorem sender_is_connected_congr {α β} {ch : Channel α} {ch2 : Channel β}
    (h : ch2.ref_count = ch.ref_count) :
    sender_is_connected ch2 = sender_is_connected ch := by
  unfold sender_is_connected
  rw [h]

/-- Connectivity of the receiver only depends on the reference count. -/
theorem receiver_is_connected_congr {α β} {ch : Channel α} {ch2 : Channel β}
    (h : ch2.ref_count = ch.ref_count) :
    receiver_is_connected ch2 = receiver_is_connected ch := by
  unfold receiver_is_connected
  rw [h]

/-- The simulation invariant ignores the reference count. -/
theorem chanInv_ref_count_irrel {α} {ch : Channel α} {q : List α} (h : ChanInv ch q) (r : Nat) :
    ChanInv ({ ch with ref_count := r } : Channel α) q :=
  ⟨h.status_lt, h.len_le, h.filled, h.values, h.empty⟩

/-- A fresh channel satisfies the invariant with the empty queue. -/
theorem new_small_inv {α} [Inhabited α] : ChanInv (new_small α) ([] : List α) := by
  refine ⟨by norm_num [new_small], by simp, fun k hk => absurd hk (Nat.not_lt_zero k),
    fun k hk => absurd hk (Nat.not_lt_zero k), ?_⟩
  intro k hk hk8
  show slot_status 0 _ = EMPTY
  rw [slot_status_eq]
  simp [EMPTY]

theorem run_sends_preserve {α} (vs : List α) :
    ∀ (ch : Channel α) (q : List α), ChanInv ch q → sender_is_connected ch = true →
    ChanInv (run_sends ch vs).1 (q ++ accepted ch vs) ∧
    (run_sends ch vs).1.ref_count = ch.ref_count := by
  induction vs with
  | nil =>
    intro ch q hInv hconn
    simpa [run_sends, accepted] using hInv
  | cons v vs ih =>
    intro ch q hInv hconn
    rcases Nat.lt_or_ge q.length 8 with hlen | hlen
    · obtain ⟨hok, hInv1, hrc1, _⟩ := send_ok_of_inv v hInv hconn hlen
      rcases htry : try_send ch v with ⟨ch1, r⟩
      rw [htry] at hok hInv1 hrc1
      dsimp only at hok hInv1 hrc1
      subst hok
      have hconn1 : sender_is_connected ch1 = true := by
        rw [sender_is_connected_congr hrc1]
        exact hconn
      obtain ⟨hInv2, hrc2⟩ := ih ch1 (q ++ [v]) hInv1 hconn1
      constructor
      · simp only [run_sends, accepted, htry]
        simpa [List.append_assoc] using hInv2
      · simp only [run_sends, htry]
        rw [hrc2, hrc1]
    · have hlen8 : q.length = 8 := by
        have := hInv.len_le
        omega
      have hfull := send_full_of_inv v hInv hconn hlen8
      obtain ⟨hInv2, hrc2⟩ := ih ch q hInv hconn
      constructor
      · simp only [run_sends, accepted, hfull]
        exact hInv2
      · simp only [run_sends, hfull]
        exact hrc2

theorem run_recvs_drained {α} (m : Nat) :
    ∀ (ch : Channel α) (q : List α), ChanInv ch q → receiver_is_connected ch = false →
    (run_recvs ch m).2 =
      (q.take m).map RecvResult.Ok ++ List.replicate (m - q.length) RecvResult.Disconnected := by
  induction m with
  | zero =>
    intro ch q hInv hdisc
    simp [run_recvs]
  | succ m ih =>
    intro ch q hInv hdisc
    match q with
    | v :: q' =>
      obtain ⟨hok, hInv1, hrc1, _, _⟩ := recv_ok_of_inv hInv
      rcases htry : try_recv ch with ⟨ch1, r⟩
      rw [htry] at hok hInv1 hrc1
      dsimp only at hok hInv1 hrc1
      subst hok
      have hdisc1 : receiver_is_connected ch1 = false := by
        rw [receiver_is_connected_congr hrc1]
        exact hdisc
      have := ih ch1 q' hInv1 hdisc1
      simp only [run_recvs, htry, this]
      simp [List.take_succ_cons, Nat.succ_sub_succ]
    | [] =>
      obtain ⟨htry, hInv1⟩ := recv_none_of_inv hInv
      have hdisc1 : receiver_is_connected
          ({ ch with status := (ch.status + MARK_NEXT_POS) % USIZE_MOD } : Channel α) = false := by
        unfold receiver_is_connected at hdisc ⊢
        exact hdisc
      have := ih _ [] hInv1 hdisc1
      simp only [run_recvs, htry, hdisc, Bool.false_eq_true, if_false, this]
      simp [List.replicate_succ]

/-! ### Sequences of operations: sends, then sender drop, then receives -/

/-- C2: after `try_send`-ing the values `vs` into a fresh channel and dropping
the (only) `Sender`, `m` calls of `try_recv` yield exactly the accepted values
in send order, followed by `Disconnected` for every further call: `try_recv`
checks connectivity before scanning, so no accepted value is lost and the
count of successful receives is exactly the count of successful sends. -/
theorem sender_drop_recv_drain (vs : List Nat) (m : Nat) :
    (run_recvs (drop_sender (run_sends (new_small Nat) vs).1) m).2 =
      ((accepted (new_small Nat) vs).take m).map RecvResult.Ok ++
      List.replicate (m - (accepted (new_small Nat) vs).length) RecvResult.Disconnected := by
  obtain ⟨hInv1, hrc⟩ :=
    run_sends_preserve vs (new_small Nat) [] new_small_inv (by decide)
  rw [List.nil_append] at hInv1
  have hrc2 : (drop_sender (run_sends (new_small Nat) vs).1).ref_count =
      ((RECEIVER_ALIVE ||| 1) + (USIZE_MOD - 1)) % USIZE_MOD := by
    show ((run_sends (new_small Nat) vs).1.ref_count + (USIZE_MOD - 1)) % USIZE_MOD = _
    rw [hrc]
    rfl
  have hdisc : receiver_is_connected (drop_sender (run_sends (new_small Nat) vs).1) = false := by
    unfold receiver_is_connected
    rw [hrc2]
    decide
  exact run_recvs_drained m _ _ (chanInv_ref_count_irrel hInv1 _) hdisc

theorem run_ops_fifo {α} (ops : List (Op α)) :
    ∀ (ch : Channel α) (q : List α), ChanInv ch q →
    sender_is_connected ch = true → receiver_is_connected ch = true →
    (run_ops ch ops).2 = (run_fifo q ops).2 ∧
    ChanInv (run_ops ch ops).1 (run_fifo q ops).1 ∧
    (run_ops ch ops).1.ref_count = ch.ref_count := by
  induction ops with
  | nil =>
    intro ch q hInv _ _
    exact ⟨rfl, hInv, rfl⟩
  | cons op ops ih =>
    intro ch q hInv hs hr
    cases op with
    | send v =>
      rcases Nat.lt_or_ge q.length 8 with hlen | hlen
      · obtain ⟨hok, hInv1, hrc1, _⟩ := send_ok_of_inv v hInv hs hlen
        rcases htry : try_send ch v with ⟨ch1, r⟩
        rw [htry] at hok hInv1 hrc1
        dsimp only at hok hInv1 hrc1
        subst hok
        have hs1 : sender_is_connected ch1 = true := by
          rw [sender_is_connected_congr hrc1]; exact hs
        have hr1 : receiver_is_connected ch1 = true := by
          rw [receiver_is_connected_congr hrc1]; exact hr
        obtain ⟨he, hi2, hrc2⟩ := ih ch1 (q ++ [v]) hInv1 hs1 hr1
        simp only [run_ops, run_fifo, fifo_step, htry, if_pos hlen]
        exact ⟨by rw [he], hi2, by rw [hrc2, hrc1]⟩
      · have hlen8 : q.length = 8 := by
          have := hInv.len_le
          omega
        have hfull := send_full_of_inv v hInv hs hlen8
        obtain ⟨he, hi2, hrc2⟩ := ih ch q hInv hs hr
        simp only [run_ops, run_fifo, fifo_step, hfull, if_neg (by omega : ¬ q.length < 8)]
        exact ⟨by rw [he], hi2, hrc2⟩
    | recv =>
      match q with
      | v :: q2 =>
        obtain ⟨hok, hInv1, hrc1, _, _⟩ := recv_ok_of_inv hInv
        rcases htry : try_recv ch with ⟨ch1, r⟩
        rw [htry] at hok hInv1 hrc1
        dsimp only at hok hInv1 hrc1
        subst hok
        have hs1 : sender_is_connected ch1 = true := by
          rw [sender_is_connected_congr hrc1]; exact hs
        have hr1 : receiver_is_connected ch1 = true := by
          rw [receiver_is_connected_congr hrc1]; exact hr
        obtain ⟨he, hi2, hrc2⟩ := ih ch1 q2 hInv1 hs1 hr1
        simp only [run_ops, run_fifo, fifo_step, htry]
        exact ⟨by rw [he], hi2, by rw [hrc2, hrc1]⟩
      | [] =>
        obtain ⟨htry, hInv1⟩ := recv_none_of_inv hInv
        rw [hr] at htry
        simp only [if_true] at htry
        have hs1 : sender_is_connected
            ({ ch with status := (ch.status + MARK_NEXT_POS) % USIZE_MOD } : Channel α) = true := by
          unfold sender_is_connected at hs ⊢
          exact hs
        have hr1 : receiver_is_connected
            ({ ch with status := (ch.status + MARK_NEXT_POS) % USIZE_MOD } : Channel α) = true := by
          unfold receiver_is_connected at hr ⊢
          exact hr
        obtain ⟨he, hi2, hrc2⟩ := ih _ [] hInv1 hs1 hr1
        simp only [run_ops, run_fifo, fifo_step, htry]
        exact ⟨by rw [he], hi2, hrc2⟩

/-- C4: starting from a fresh channel, any single-threaded sequence of
`try_send`/`try_recv` operations is observationally identical to the same
sequence run against a FIFO queue of capacity 8: sends scan from the receiver
cursor, receives consume in cursor order, and received values appear in send
order. -/
theorem channel_refines_fifo (ops : List (Op Nat)) :
    (run_ops (new_small Nat) ops).2 = (run_fifo ([] : List Nat) ops).2 :=
  (run_ops_fifo ops (new_small Nat) [] new_small_inv (by decide) (by decide)).1

theorem sent_recv_decompose {α} (ops : List (Op α)) :
    ∀ (ch : Channel α) (q : List α), ChanInv ch q →
    ∃ qf : List α, ChanInv (run_ops ch ops).1 qf ∧
      q ++ sent_ok_values ch ops = recv_ok_values ch ops ++ qf := by
  induction ops with
  | nil =>
    intro ch q hInv
    exact ⟨q, hInv, by simp [sent_ok_values, recv_ok_values, run_ops]⟩
  | cons op ops ih =>
    intro ch q hInv
    cases op with
    | send v =>
      cases hc : sender_is_connected ch with
      | false =>
        have hd := send_disconnected ch v hc
        obtain ⟨qf, hI, heq⟩ := ih ch q hInv
        exact ⟨qf, by simpa [run_ops, hd] using hI, by simpa [sent_ok_values, recv_ok_values, hd]
          using heq⟩
      | true =>
        rcases Nat.lt_or_ge q.length 8 with hlen | hlen
        · obtain ⟨hok, hInv1, _, _⟩ := send_ok_of_inv v hInv hc hlen
          rcases htry : try_send ch v with ⟨ch1, r⟩
          rw [htry] at hok hInv1
          dsimp only at hok hInv1
          subst hok
          obtain ⟨qf, hI, heq⟩ := ih ch1 (q ++ [v]) hInv1
          refine ⟨qf, by simpa [run_ops, htry] using hI, ?_⟩
          simp only [sent_ok_values, recv_ok_values, htry]
          rw [← heq]
          simp
        · have hlen8 : q.length = 8 := by
            have := hInv.len_le
            omega
          have hfull := send_full_of_inv v hInv hc hlen8
          obtain ⟨qf, hI, heq⟩ := ih ch q hInv
          exact ⟨qf, by simpa [run_ops, hfull] using hI,
            by simpa [sent_ok_values, recv_ok_values, hfull] using heq⟩
    | recv =>
      match q with
      | v :: q2 =>
        obtain ⟨hok, hInv1, _, _, _⟩ := recv_ok_of_inv hInv
        rcases htry : try_recv ch with ⟨ch1, r⟩
        rw [htry] at hok hInv1
        dsimp only at hok hInv1
        subst hok
        obtain ⟨qf, hI, heq⟩ := ih ch1 q2 hInv1
        refine ⟨qf, by simpa [run_ops, htry] using hI, ?_⟩
        simp only [sent_ok_values, recv_ok_values, htry]
        rw [List.cons_append, heq]
        simp
      | [] =>
        obtain ⟨htry, hInv1⟩ := recv_none_of_inv hInv
        obtain ⟨qf, hI, heq⟩ := ih _ [] hInv1
        cases hc : receiver_is_connected ch with
        | true =>
          rw [hc] at htry
          simp only [if_true] at htry
          exact ⟨qf, by simpa [run_ops, htry] using hI,
            by simpa [sent_ok_values, recv_ok_values, htry] using heq⟩
        | false =>
          rw [hc] at htry
          simp only [Bool.false_eq_true, if_false] at htry
          exact ⟨qf, by simpa [run_ops, htry] using hI,
            by simpa [sent_ok_values, recv_ok_values, htry] using heq⟩

/-- C3: over any single-threaded sequence of `try_send`/`try_recv` operations
on a fresh channel, the multiset of values accepted by `try_send` contains the
multiset of values returned by `try_recv`: nothing is received that was not
sent, and nothing is received twice. -/
theorem recv_multiset_le_send (ops : List (Op Nat)) :
    (↑(recv_ok_values (new_small Nat) ops) : Multiset Nat) ≤
      ↑(sent_ok_values (new_small Nat) ops) := by
  obtain ⟨qf, _, heq⟩ := sent_recv_decompose ops (new_small Nat) [] new_small_inv
  rw [List.nil_append] at heq
  rw [heq, ← Multiset.coe_add]
  exact Multiset.le_add_right _ _

/-! ### Full case analysis of `try_send` on an arbitrary channel state -/

theorem sender_is_connected_false_iff {α} (ch : Channel α) :
    sender_is_connected ch = false ↔
      ch.ref_count &&& (RECEIVER_ALIVE ||| MANAGER_ALIVE) = 0 := by
  simp [sender_is_connected]

theorem try_send_cases {α} (ch : Channel α) (v : α) (hconn : sender_is_connected ch = true) :
    ((∀ j : Fin 8, slot_status ch.status j.val ≠ EMPTY) ∧ try_send ch v = (ch, .Full v)) ∨
    (∃ i : Fin 8, slot_status ch.status i.val = EMPTY ∧
      (try_send ch v).2 = SendResult.Ok ∧
      (try_send ch v).1.slots = Function.update ch.slots i v ∧
      (try_send ch v).1.ref_count = ch.ref_count ∧
      slot_status (try_send ch v).1.status i.val = FILLED ∧
      (∀ j : Fin 8, j ≠ i →
        slot_status (try_send ch v).1.status j.val = slot_status ch.status j.val) ∧
      receiver_pos (try_send ch v).1.status = receiver_pos ch.status) := by
  classical
  by_cases hall : ∀ j : Fin 8, slot_status ch.status j.val ≠ EMPTY
  · left
    refine ⟨hall, ?_⟩
    unfold try_send
    rw [hconn]
    simp only [if_true]
    apply try_send_loop_none
    intro sl hsl
    rw [is_available_false_iff]
    exact hall sl
  · right
    push_neg at hall
    have hex : ∃ k, slot_status ch.status (slotIdx (receiver_pos ch.status) k).val = EMPTY := by
      obtain ⟨j, hj⟩ := hall
      obtain ⟨k, hk, rfl⟩ := slotIdx_surj (receiver_pos ch.status) j
      exact ⟨k, hj⟩
    have hk0 : slot_status ch.status (slotIdx (receiver_pos ch.status) (Nat.find hex)).val =
        EMPTY := Nat.find_spec hex
    have hmin : ∀ k, k < Nat.find hex →
        slot_status ch.status (slotIdx (receiver_pos ch.status) k).val ≠ EMPTY :=
      fun k hk => Nat.find_min hex hk
    have hk0lt : Nat.find hex < 8 := by
      by_contra h
      have heq : slotIdx (receiver_pos ch.status) (Nat.find hex % 8) =
          slotIdx (receiver_pos ch.status) (Nat.find hex) := by
        apply Fin.ext
        show (receiver_pos ch.status + Nat.find hex % 8) % 8 =
          (receiver_pos ch.status + Nat.find hex) % 8
        omega
      exact hmin (Nat.find hex % 8) (by omega) (heq ▸ hk0)
    obtain ⟨l2, hscan, _⟩ := scan_slots_split (receiver_pos ch.status) (Nat.find hex) hk0lt
    have hallpre : ∀ sl ∈ (List.range (Nat.find hex)).map (slotIdx (receiver_pos ch.status)),
        is_available ch.status sl.val = false := by
      intro sl hsl
      rcases List.mem_map.mp hsl with ⟨k, hk, rfl⟩
      rw [is_available_false_iff]
      exact hmin k (List.mem_range.mp hk)
    have hav : is_available ch.status
        (slotIdx (receiver_pos ch.status) (Nat.find hex)).val = true := by
      rw [is_available_iff]
      exact hk0
    have htry : try_send ch v =
        ({ status := (ch.status ||| mark_slot (slotIdx (receiver_pos ch.status)
              (Nat.find hex)).val MARK_TAKEN) |||
              mark_slot (slotIdx (receiver_pos ch.status) (Nat.find hex)).val MARK_FILLED,
           slots := Function.update ch.slots (slotIdx (receiver_pos ch.status) (Nat.find hex)) v,
           ref_count := ch.ref_count }, .Ok) := by
      unfold try_send
      rw [hconn]
      simp only [if_true]
      rw [hscan]
      exact try_send_loop_found v _ _ l2 ch ch.status rfl hallpre hav
    set i : Fin 8 := slotIdx (receiver_pos ch.status) (Nat.find hex) with hidef
    have hilt : i.val < 8 := i.isLt
    have h1 : ch.status ||| mark_slot i.val MARK_TAKEN = field_write ch.status i.val 1 := by
      have hv1 : EMPTY ||| MARK_TAKEN = 1 := by decide
      rw [or_mark ch.status i.val MARK_TAKEN (by decide), hk0, hv1]
    have h2 : slot_status (field_write ch.status i.val 1) i.val = 1 :=
      field_write_self _ _ (by norm_num)
    have h3 : field_write ch.status i.val 1 ||| mark_slot i.val MARK_FILLED =
        field_write (field_write ch.status i.val 1) i.val 3 := by
      have hv2 : (1 : Nat) ||| MARK_FILLED = 3 := by decide
      rw [or_mark _ i.val MARK_FILLED (by decide), h2, hv2]
    rw [htry, h1, h3]
    dsimp only
    refine ⟨i, hk0, rfl, rfl, rfl, field_write_self _ _ (by norm_num), ?_, ?_⟩
    · intro j hj
      have hjv : j.val ≠ i.val := fun hv => hj (Fin.ext hv)
      rw [field_write_other _ _ _ (by norm_num) hjv, field_write_other _ _ _ (by norm_num) hjv]
    · rw [field_write_pos _ _ (by norm_num) hilt, field_write_pos _ _ (by norm_num) hilt]

/-- C1: `try_send` returns `Disconnected(v)` iff both alive bits
(`RECEIVER_ALIVE`, `MANAGER_ALIVE`) are clear; otherwise it returns `Full(v)`
iff no slot is EMPTY in the status word it scans; otherwise it returns `Ok`
and stores `v` in exactly one (previously EMPTY, now FILLED) slot, leaving
every other slot status and the receiver cursor unchanged.  In particular, on
a fresh channel eight sends succeed and the ninth returns `Full` carrying the
unsent value. -/
theorem try_send_spec :
    (∀ (α : Type) (ch : Channel α) (v : α),
      ((try_send ch v).2 = SendResult.Disconnected v ↔
        ch.ref_count &&& (RECEIVER_ALIVE ||| MANAGER_ALIVE) = 0) ∧
      (sender_is_connected ch = true →
        ((try_send ch v).2 = SendResult.Full v ↔
          ∀ j : Fin 8, slot_status ch.status j.val ≠ EMPTY)) ∧
      (sender_is_connected ch = true → (∃ j : Fin 8, slot_status ch.status j.val = EMPTY) →
        ∃ i : Fin 8, slot_status ch.status i.val = EMPTY ∧
          (try_send ch v).2 = SendResult.Ok ∧
          (try_send ch v).1.slots = Function.update ch.slots i v ∧
          slot_status (try_send ch v).1.status i.val = FILLED ∧
          (∀ j : Fin 8, j ≠ i →
            slot_status (try_send ch v).1.status j.val = slot_status ch.status j.val))) ∧
    (run_sends (new_small Nat) [0, 1, 2, 3, 4, 5, 6, 7]).2 =
      List.replicate 8 SendResult.Ok ∧
    (try_send (run_sends (new_small Nat) [0, 1, 2, 3, 4, 5, 6, 7]).1 9).2 =
      SendResult.Full 9 := by
  refine ⟨?_, by decide, by decide⟩
  intro α ch v
  refine ⟨?_, ?_, ?_⟩
  · constructor
    · intro hd
      by_contra hne
      have hconn : sender_is_connected ch = true := by
        rcases Bool.eq_false_or_eq_true (sender_is_connected ch) with h | h
        · exact h
        · exact absurd ((sender_is_connected_false_iff ch).mp h) hne
      rcases try_send_cases ch v hconn with ⟨_, hfull⟩ | ⟨i, _, hok, _⟩
      · rw [hfull] at hd
        exact SendResult.noConfusion hd
      · rw [hok] at hd
        exact SendResult.noConfusion hd
    · intro h0
      have hconn : sender_is_connected ch = false := (sender_is_connected_false_iff ch).mpr h0
      rw [send_disconnected ch v hconn]
  · intro hconn
    constructor
    · intro hfull
      by_contra hne
      push_neg at hne
      rcases try_send_cases ch v hconn with ⟨hall, _⟩ | ⟨i, hie, hok, _⟩
      · obtain ⟨j, hj⟩ := hne
        exact hall j hj
      · rw [hok] at hfull
        exact SendResult.noConfusion hfull
    · intro hall
      rcases try_send_cases ch v hconn with ⟨_, hfull⟩ | ⟨i, hie, _⟩
      · rw [hfull]
      · exact absurd hie (hall i)
  · intro hconn hex
    rcases try_send_cases ch v hconn with ⟨hall, _⟩ | ⟨i, hie, hok, hsl, _, hfi, hothers, _⟩
    · obtain ⟨j, hj⟩ := hex
      exact absurd hj (hall j)
    · exact ⟨i, hie, hok, hsl, hfi, hothers⟩

/-- Witness for `try_send_spec` at a concrete channel and value. -/
theorem try_send_spec_witness :
    ((try_send (new_small Nat) 5).2 = SendResult.Disconnected 5 ↔
      (new_small Nat).ref_count &&& (RECEIVER_ALIVE ||| MANAGER_ALIVE) = 0) ∧
    (sender_is_connected (new_small Nat) = true →
      ((try_send (new_small Nat) 5).2 = SendResult.Full 5 ↔
        ∀ j : Fin 8, slot_status (new_small Nat).status j.val ≠ EMPTY)) ∧
    (sender_is_connected (new_small Nat) = true →
      (∃ j : Fin 8, slot_status (new_small Nat).status j.val = EMPTY) →
      ∃ i : Fin 8, slot_status (new_small Nat).status i.val = EMPTY ∧
        (try_send (new_small Nat) 5).2 = SendResult.Ok ∧
        (try_send (new_small Nat) 5).1.slots =
          Function.update (new_small Nat).slots i 5 ∧
        slot_status (try_send (new_small Nat) 5).1.status i.val = FILLED ∧
        (∀ j : Fin 8, j ≠ i →
          slot_status (try_send (new_small Nat) 5).1.status j.val =
          slot_status (new_small Nat).status j.val)) :=
  try_send_spec.1 Nat (new_small Nat) 5

/-! ### Behaviour of `SendValue::poll` -/

theorem try_send_loop_result {α} (v : α) :
    ∀ (l : List (Fin 8)) (ch : Channel α) (status : Nat),
    (try_send_loop ch v status l).2 = SendResult.Ok ∨
    (try_send_loop ch v status l).2 = SendResult.Full v := by
  intro l
  induction l with
  | nil => intro ch status; right; rfl
  | cons slot rest ih =>
    intro ch status
    simp only [try_send_loop]
    by_cases h1 : is_available status slot.val = true
    · rw [if_pos h1]
      by_cases h2 : is_available ch.status slot.val = true
      · rw [if_pos h2]
        left
        rfl
      · rw [if_neg h2]
        exact ih _ _
    · rw [if_neg h1]
      exact ih _ _

/-- Any `try_send` returns `Ok`, `Full` with the argument value, or
`Disconnected` with the argument value. -/
theorem try_send_result {α} (ch : Channel α) (v : α) :
    (try_send ch v).2 = SendResult.Ok ∨ (try_send ch v).2 = SendResult.Full v ∨
    (try_send ch v).2 = SendResult.Disconnected v := by
  unfold try_send
  by_cases h : sender_is_connected ch = true
  · rw [if_pos h]
    rcases try_send_loop_result v (scan_slots (receiver_pos ch.status)) ch ch.status with h1 | h1
    · exact Or.inl h1
    · exact Or.inr (Or.inl h1)
  · rw [if_neg h]
    exact Or.inr (Or.inr rfl)

/-- C5: one `poll` of the `SendValue` future makes at most two `try_send`
attempts, retrying exactly once (after registering its waker) when the first
attempt returns `Full`; it never resolves to a `Full` error: it is `Pending`
exactly when both attempts return `Full` (storing the value back for the next
poll), `Ready(Ok(()))` exactly when an attempt succeeds, and `Ready(Err(v))`
with the unsent value exactly when an attempt observes disconnection. -/
theorem sendValue_poll_spec {α} (sv : SendValue α) (ch : Channel α) (v : α)
    (hv : sv.value = some v) :
    sendValue_poll_attempts sv ch ≤ 2 ∧
    (sendValue_poll_attempts sv ch = 2 ↔ (try_send ch v).2 = SendResult.Full v) ∧
    (∀ msg, (sendValue_poll sv ch).1 ≠ PollResult.Panicked msg) ∧
    ((sendValue_poll sv ch).1 = PollResult.Pending ↔
      ((try_send ch v).2 = SendResult.Full v ∧
       (try_send (try_send ch v).1 v).2 = SendResult.Full v)) ∧
    ((sendValue_poll sv ch).1 = PollResult.Pending →
      (sendValue_poll sv ch).2.1.value = some v) ∧
    ((sendValue_poll sv ch).1 = PollResult.ReadyOk ↔
      ((try_send ch v).2 = SendResult.Ok ∨
       ((try_send ch v).2 = SendResult.Full v ∧
        (try_send (try_send ch v).1 v).2 = SendResult.Ok))) ∧
    (∀ w, (sendValue_poll sv ch).1 = PollResult.ReadyErr w ↔
      (w = v ∧ ((try_send ch v).2 = SendResult.Disconnected v ∨
        ((try_send ch v).2 = SendResult.Full v ∧
         (try_send (try_send ch v).1 v).2 = SendResult.Disconnected v)))) := by
  rcases h1 : try_send ch v with ⟨ch1, r1⟩
  have hr1 := try_send_result ch v
  rw [h1] at hr1
  dsimp only at hr1
  cases r1 with
  | Ok =>
    simp only [sendValue_poll, sendValue_poll_attempts, hv, h1]
    refine ⟨by omega, ?_, by simp, ?_, by simp, ?_, ?_⟩
    · constructor
      · intro h
        exact absurd h (by omega)
      · intro h
        exact SendResult.noConfusion h
    · constructor
      · intro h
        exact PollResult.noConfusion h
      · intro h
        rcases h with ⟨h, _⟩
        exact SendResult.noConfusion h
    · simp
    · intro w
      constructor
      · intro h
        exact PollResult.noConfusion h
      · intro h
        rcases h with ⟨_, h | ⟨h, _⟩⟩ <;> exact SendResult.noConfusion h
  | Full w =>
    have hw : w = v := by
      rcases hr1 with h | h | h
      · exact SendResult.noConfusion h
      · exact (SendResult.Full.injEq _ _).mp h
      · exact SendResult.noConfusion h
    subst hw
    rcases h2 : try_send ch1 w with ⟨ch2, r2⟩
    have hr2 := try_send_result ch1 w
    rw [h2] at hr2
    dsimp only at hr2
    cases r2 with
    | Ok =>
      simp only [sendValue_poll, sendValue_poll_attempts, hv, h1, h2]
      refine ⟨by omega, by simp, by simp, ?_, by simp, by simp, ?_⟩
      · constructor
        · intro h
          exact PollResult.noConfusion h
        · intro h
          rcases h with ⟨_, h⟩
          exact SendResult.noConfusion h
      · intro u
        constructor
        · intro h
          exact PollResult.noConfusion h
        · intro h
          rcases h with ⟨_, h | ⟨_, h⟩⟩ <;> exact SendResult.noConfusion h
    | Full u =>
      have hu : u = w := by
        rcases hr2 with h | h | h
        · exact SendResult.noConfusion h
        · exact (SendResult.Full.injEq _ _).mp h
        · exact SendResult.noConfusion h
      subst hu
      simp only [sendValue_poll, sendValue_poll_attempts, hv, h1, h2]
      refine ⟨by omega, by simp, by simp, by simp, by simp, ?_, ?_⟩
      · constructor
        · intro h
          exact PollResult.noConfusion h
        · intro h
          rcases h with h | ⟨_, h⟩ <;> exact SendResult.noConfusion h
      · intro u2
        constructor
        · intro h
          exact PollResult.noConfusion h
        · intro h
          rcases h with ⟨_, h | ⟨_, h⟩⟩ <;> exact SendResult.noConfusion h
    | Disconnected u =>
      have hu : u = w := by
        rcases hr2 with h | h | h
        · exact SendResult.noConfusion h
        · exact SendResult.noConfusion h
        · exact (SendResult.Disconnected.injEq _ _).mp h
      subst hu
      simp only [sendValue_poll, sendValue_poll_attempts, hv, h1, h2]
      refine ⟨by omega, by simp, by simp, ?_, by simp, ?_, ?_⟩
      · constructor
        · intro h
          exact PollResult.noConfusion h
        · intro h
          rcases h with ⟨_, h⟩
          exact SendResult.noConfusion h
      · constructor
        · intro h
          exact PollResult.noConfusion h
        · intro h
          rcases h with h | ⟨_, h⟩ <;> exact SendResult.noConfusion h
      · intro u2
        constructor
        · intro h
          simp only [PollResult.ReadyErr.injEq] at h
          subst h
          simp
        · intro h
          rw [h.1]
  | Disconnected w =>
    have hw : w = v := by
      rcases hr1 with h | h | h
      · exact SendResult.noConfusion h
      · exact SendResult.noConfusion h
      · exact (SendResult.Disconnected.injEq _ _).mp h
    subst hw
    simp only [sendValue_poll, sendValue_poll_attempts, hv, h1]
    refine ⟨by omega, ?_, by simp, ?_, by simp, ?_, ?_⟩
    · constructor
      · intro h
        exact absurd h (by omega)
      · intro h
        exact SendResult.noConfusion h
    · constructor
      · intro h
        exact PollResult.noConfusion h
      · intro h
        rcases h with ⟨h, _⟩
        exact SendResult.noConfusion h
    · constructor
      · intro h
        exact PollResult.noConfusion h
      · intro h
        rcases h with h | ⟨h, _⟩ <;> exact SendResult.noConfusion h
    · intro u
      constructor
      · intro h
        simp only [PollResult.ReadyErr.injEq] at h
        subst h
        simp
      · intro h
        rw [h.1]

/-- Witness for `sendValue_poll_spec`: polling `send 7` on a fresh channel. -/
theorem sendValue_poll_spec_witness :
    sendValue_poll_attempts (send 7) (new_small Nat) ≤ 2 ∧
    (sendValue_poll_attempts (send 7) (new_small Nat) = 2 ↔
      (try_send (new_small Nat) 7).2 = SendResult.Full 7) ∧
    (∀ msg, (sendValue_poll (send 7) (new_small Nat)).1 ≠ PollResult.Panicked msg) ∧
    ((sendValue_poll (send 7) (new_small Nat)).1 = PollResult.Pending ↔
      ((try_send (new_small Nat) 7).2 = SendResult.Full 7 ∧
       (try_send (try_send (new_small Nat) 7).1 7).2 = SendResult.Full 7)) ∧
    ((sendValue_poll (send 7) (new_small Nat)).1 = PollResult.Pending →
      (sendValue_poll (send 7) (new_small Nat)).2.1.value = some 7) ∧
    ((sendValue_poll (send 7) (new_small Nat)).1 = PollResult.ReadyOk ↔
      ((try_send (new_small Nat) 7).2 = SendResult.Ok ∨
       ((try_send (new_small Nat) 7).2 = SendResult.Full 7 ∧
        (try_send (try_send (new_small Nat) 7).1 7).2 = SendResult.Ok))) ∧
    (∀ w, (sendValue_poll (send 7) (new_small Nat)).1 = PollResult.ReadyErr w ↔
      (w = 7 ∧ ((try_send (new_small Nat) 7).2 = SendResult.Disconnected 7 ∨
        ((try_send (new_small Nat) 7).2 = SendResult.Full 7 ∧
         (try_send (try_send (new_small Nat) 7).1 7).2 = SendResult.Disconnected 7)))) :=
  sendValue_poll_spec (send 7) (new_small Nat) 7 rfl

/-- C10: a `SendValue` future whose value was already taken (it has resolved)
is not fused: polling it again panics with "SendValue polled after completion"
instead of returning a `Poll` value. -/
theorem sendValue_poll_after_completion {α} (sv : SendValue α) (ch : Channel α)
    (h : sv.value = none) :
    sendValue_poll sv ch = (PollResult.Panicked "SendValue polled after completion", sv, ch) := by
  unfold sendValue_poll
  rw [h]

/-- Witness for `sendValue_poll_after_completion` at a concrete exhausted future. -/
theorem sendValue_poll_after_completion_witness :
    sendValue_poll ({ value := none } : SendValue Nat) (new_small Nat) =
      (PollResult.Panicked "SendValue polled after completion",
       ({ value := none } : SendValue Nat), new_small Nat) :=
  sendValue_poll_after_completion ({ value := none } : SendValue Nat) (new_small Nat) rfl

/-! ### The Manager: receiver re-creation and restart -/

/-- C6: `Manager::new_receiver` succeeds iff the `RECEIVER_ALIVE` bit was
clear in the reference count at the `fetch_or`, and it sets that bit, so an
immediately following `new_receiver` fails: at most one `Receiver` can be
created while one is alive. -/
theorem manager_new_receiver_spec {α} (ch : Channel α) :
    ((manager_new_receiver ch).2 = NewReceiverResult.Ok ↔
      ch.ref_count &&& RECEIVER_ALIVE = 0) ∧
    (manager_new_receiver (manager_new_receiver ch).1).2 =
      NewReceiverResult.ReceiverConnected := by
  have h63 : RECEIVER_ALIVE = 2 ^ 63 := by decide
  have hbit : (ch.ref_count ||| RECEIVER_ALIVE) &&& RECEIVER_ALIVE ≠ 0 := by
    rw [h63, Nat.and_two_pow]
    have ht : (ch.ref_count ||| 2 ^ 63).testBit 63 = true := by
      simp only [Nat.testBit_or]
      have h2 : Nat.testBit (2 ^ 63) 63 = true := by decide
      rw [h2]
      simp
    rw [ht]
    norm_num
  have hfst : (manager_new_receiver ch).1 =
      ({ ch with ref_count := ch.ref_count ||| RECEIVER_ALIVE } : Channel α) := by
    unfold manager_new_receiver
    dsimp only
    split
    · rfl
    · rfl
  constructor
  · unfold manager_new_receiver
    dsimp only
    by_cases h : ch.ref_count &&& RECEIVER_ALIVE = 0
    · rw [if_pos (by simpa using h)]
      simp [h]
    · rw [if_neg (by simpa using h)]
      simp [h]
  · rw [hfst]
    unfold manager_new_receiver
    dsimp only
    rw [if_neg ?hc]
    case hc =>
      intro hc
      exact hbit (by simpa using hc)

/-- C8 counterexample: after creating a managed channel, dropping the
Receiver, calling `Manager::new_receiver` (which returns `Ok`, leaving the
fresh Receiver alive) and dropping the Manager, `sender.is_connected()` is
`true`, not `false` as the claim states: the `RECEIVER_ALIVE` bit set by
`new_receiver` is still set. -/
theorem manager_restart_counterexample :
    ¬ ((manager_new_receiver (drop_receiver (new_small_channel Nat))).2 =
          NewReceiverResult.Ok →
       sender_is_connected (drop_manager
         (manager_new_receiver (drop_receiver (new_small_channel Nat))).1) = false) := by
  decide

/-- C8 amended: the same sequence with the Receiver returned by
`new_receiver` also dropped (as when the call result is unused): then
dropping the Manager leaves both alive bits clear and `is_connected` is
`false`. -/
theorem manager_restart_amended :
    (manager_new_receiver (drop_receiver (new_small_channel Nat))).2 =
      NewReceiverResult.Ok ∧
    sender_is_connected (drop_manager (drop_receiver
      (manager_new_receiver (drop_receiver (new_small_channel Nat))).1)) = false := by
  decide

/-! ### The receiver cursor -/

theorem try_recv_loop_pos {α} : ∀ (l : List (Fin 8)) (ch : Channel α) (status : Nat),
    ch.status < 2 ^ 64 →
    receiver_pos (try_recv_loop ch status l).1.status = receiver_pos ch.status ∧
    (try_recv_loop ch status l).1.status < 2 ^ 64 := by
  intro l
  induction l with
  | nil =>
    intro ch status h
    exact ⟨rfl, h⟩
  | cons slot rest ih =>
    intro ch status h
    simp only [try_recv_loop]
    have hf : slot_status ch.status slot.val ^^^ MARK_READING < 4 := by
      have h1 : slot_status ch.status slot.val < 2 ^ 2 := slot_status_lt _ _
      have h2 : MARK_READING < 2 ^ 2 := by decide
      exact xor_lt_two_pow h1 h2
    have hx : ch.status ^^^ mark_slot slot.val MARK_READING =
        field_write ch.status slot.val (slot_status ch.status slot.val ^^^ MARK_READING) :=
      xor_mark _ _ _ (by decide)
    have hxpos : receiver_pos (ch.status ^^^ mark_slot slot.val MARK_READING) =
        receiver_pos ch.status := by
      rw [hx]
      exact field_write_pos _ _ hf slot.isLt
    have hxlt : ch.status ^^^ mark_slot slot.val MARK_READING < 2 ^ 64 := by
      rw [hx]
      exact field_write_lt _ _ hf slot.isLt h
    by_cases h1 : is_filled status slot.val = true
    · rw [if_pos h1]
      by_cases h2 : is_filled ch.status slot.val = true
      · rw [if_pos h2]
        dsimp only
        have ha := and_mark_emptied (ch.status ^^^ mark_slot slot.val MARK_READING)
          slot.val hxlt slot.isLt
        constructor
        · rw [ha, field_write_pos _ _ (by norm_num) slot.isLt, hxpos]
        · rw [ha]
          exact field_write_lt _ _ (by norm_num) slot.isLt hxlt
      · rw [if_neg h2]
        have hrec := ih ({ ch with status := ch.status ^^^ mark_slot slot.val MARK_READING } :
          Channel α) ch.status hxlt
        exact ⟨by rw [hrec.1]; exact hxpos, hrec.2⟩
    · rw [if_neg h1]
      exact ih ch status h

/-- C9: every `try_recv` advances the receiver cursor by exactly one modulo 8
via the single wrapping `fetch_add(MARK_NEXT_POS)`; that addition never
changes the low 16 slot-status bits even when the word wraps around, because
`receiver_pos` is the bits above the status field reduced modulo 8. -/
theorem try_recv_advances_cursor {α} (ch : Channel α) (h : ch.status < 2 ^ 64) :
    receiver_pos ((ch.status + MARK_NEXT_POS) % USIZE_MOD) =
      (receiver_pos ch.status + 1) % 8 ∧
    ((ch.status + MARK_NEXT_POS) % USIZE_MOD) % 2 ^ 16 = ch.status % 2 ^ 16 ∧
    (∀ j, j < 8 →
      slot_status ((ch.status + MARK_NEXT_POS) % USIZE_MOD) j = slot_status ch.status j) ∧
    receiver_pos (try_recv ch).1.status = (receiver_pos ch.status + 1) % 8 := by
  obtain ⟨hpos, hlow, hlt⟩ := status_add_next_pos ch.status h
  refine ⟨hpos, hlow, ?_, ?_⟩
  · intro j hj
    rw [slot_status_mod16 _ j hj, hlow, ← slot_status_mod16 _ j hj]
  · unfold try_recv
    dsimp only
    rcases hloop : try_recv_loop
        ({ ch with status := (ch.status + MARK_NEXT_POS) % USIZE_MOD } : Channel α)
        ch.status (scan_slots (receiver_pos ch.status)) with ⟨c1, o⟩
    have hl := try_recv_loop_pos (scan_slots (receiver_pos ch.status))
      ({ ch with status := (ch.status + MARK_NEXT_POS) % USIZE_MOD } : Channel α)
      ch.status hlt
    rw [hloop] at hl
    dsimp only at hl
    cases o with
    | some v =>
      dsimp only
      rw [hl.1]
      exact hpos
    | none =>
      dsimp only
      rw [hl.1]
      exact hpos

/-- Witness for `try_recv_advances_cursor` at a fresh channel. -/
theorem try_recv_advances_cursor_witness :
    receiver_pos (((new_small Nat).status + MARK_NEXT_POS) % USIZE_MOD) =
      (receiver_pos (new_small Nat).status + 1) % 8 ∧
    (((new_small Nat).status + MARK_NEXT_POS) % USIZE_MOD) % 2 ^ 16 =
      (new_small Nat).status % 2 ^ 16 ∧
    (∀ j, j < 8 →
      slot_status (((new_small Nat).status + MARK_NEXT_POS) % USIZE_MOD) j =
      slot_status (new_small Nat).status j) ∧
    receiver_pos (try_recv (new_small Nat)).1.status =
      (receiver_pos (new_small Nat).status + 1) % 8 :=
  try_recv_advances_cursor (new_small Nat) (by norm_num [new_small])

end Inbox

namespace Sched

theorem lt_amended_eq_true_iff (a b : ProcessData) :
    lt_amended a b = true ↔
      (weight a < weight b ∨ (weight a = weight b ∧
        (priority_rank a.priority < priority_rank b.priority ∨
         (priority_rank a.priority = priority_rank b.priority ∧ a.id < b.id)))) := by
  simp [lt_amended]

theorem lt_amended_irrefl (a : ProcessData) : lt_amended a a = false := by
  simp [lt_amended]

theorem lt_amended_asymm {a b : ProcessData} (h : lt_amended a b = true) :
    lt_amended b a = false := by
  rcases hba : lt_amended b a with _ | _
  · rfl
  · exfalso
    rw [lt_amended_eq_true_iff] at h hba
    omega

theorem lt_amended_neg_trans {a b c : ProcessData} (hab : lt_amended a b = false)
    (hbc : lt_amended b c = false) : lt_amended a c = false := by
  rcases hac : lt_amended a c with _ | _
  · rfl
  · exfalso
    have hab2 : ¬ (weight a < weight b ∨ (weight a = weight b ∧
        (priority_rank a.priority < priority_rank b.priority ∨
         (priority_rank a.priority = priority_rank b.priority ∧ a.id < b.id)))) := by
      rw [← lt_amended_eq_true_iff]
      simp [hab]
    have hbc2 : ¬ (weight b < weight c ∨ (weight b = weight c ∧
        (priority_rank b.priority < priority_rank c.priority ∨
         (priority_rank b.priority = priority_rank c.priority ∧ b.id < c.id)))) := by
      rw [← lt_amended_eq_true_iff]
      simp [hbc]
    rw [lt_amended_eq_true_iff] at hac
    omega

theorem next_process_eq_none {lt : ProcessData → ProcessData → Bool}
    {s : List ProcessData} (h : next_process lt s = none) : s = [] := by
  cases s with
  | nil => rfl
  | cons a s =>
    exfalso
    simp only [next_process] at h
    rcases hrec : next_process lt s with _ | ⟨q, rest2⟩ <;> rw [hrec] at h <;>
      dsimp only at h
    · exact Option.noConfusion h
    · by_cases hlt : lt q a = true
      · rw [if_pos hlt] at h
        exact Option.noConfusion h
      · rw [if_neg hlt] at h
        exact Option.noConfusion h

theorem next_process_amended_min :
    ∀ (s : List ProcessData) (p : ProcessData) (rest : List ProcessData),
    next_process lt_amended s = some (p, rest) →
    p ∈ s ∧ ∀ q ∈ s, lt_amended q p = false := by
  intro s
  induction s with
  | nil =>
    intro p rest h
    exact Option.noConfusion h
  | cons a s ih =>
    intro p rest h
    simp only [next_process] at h
    rcases hrec : next_process lt_amended s with _ | ⟨q, rest2⟩ <;> rw [hrec] at h <;>
      dsimp only at h
    · have hs : s = [] := next_process_eq_none hrec
      subst hs
      have hpa : p = a := by
        injection h with h1
        injection h1 with h2 _
        exact h2.symm
      subst hpa
      refine ⟨List.mem_cons_self _ _, ?_⟩
      intro x hx
      rcases List.mem_cons.mp hx with rfl | hx
      · exact lt_amended_irrefl x
      · exact absurd hx (List.not_mem_nil x)
    · obtain ⟨hqmem, hall⟩ := ih q rest2 hrec
      by_cases hlt : lt_amended q a = true
      · rw [if_pos hlt] at h
        have hpq : p = q := by
          injection h with h1
          injection h1 with h2 _
          exact h2.symm
        subst hpq
        refine ⟨List.mem_cons_of_mem _ hqmem, ?_⟩
        intro x hx
        rcases List.mem_cons.mp hx with rfl | hx
        · exact lt_amended_asymm hlt
        · exact hall x hx
      · rw [if_neg hlt] at h
        have hpa : p = a := by
          injection h with h1
          injection h1 with h2 _
          exact h2.symm
        subst hpa
        have hqa : lt_amended q p = false := by
          revert hlt
          cases lt_amended q p <;> simp
        refine ⟨List.mem_cons_self _ _, ?_⟩
        intro x hx
        rcases List.mem_cons.mp hx with rfl | hx
        · exact lt_amended_irrefl x
        · exact lt_amended_neg_trans (hall x hx) hqa

/-- C7 counterexample: under the claim's own ordering rule (smallest
`runtime * multiplier`, equal weights broken by smaller `ProcessId`), adding
the three processes in the order the repository test `next_process_order`
does — LOW (id 1), HIGH (id 2), NORMAL (id 3), all with runtime 0 — makes the
first `next_process()` return the LOW process (smallest id wins the all-zero
weight tie), not the HIGH one: the claimed tie-break contradicts the claimed
HIGH, NORMAL, LOW output. -/
theorem next_process_claim_counterexample :
    next_process lt_claim
      [⟨1, Priority.LOW, 0⟩, ⟨2, Priority.HIGH, 0⟩, ⟨3, Priority.NORMAL, 0⟩] =
      some (⟨1, Priority.LOW, 0⟩, [⟨2, Priority.HIGH, 0⟩, ⟨3, Priority.NORMAL, 0⟩]) ∧
    Priority.LOW ≠ Priority.HIGH := by
  decide

/-- C7 amended: with equal weights broken by higher priority first (then by
smaller id), three processes of priorities HIGH, NORMAL and LOW with runtime
0 are returned by three successive `next_process()` calls in priority order
HIGH, NORMAL, LOW (shown here for the insertion order of the repository
test, with arbitrary ids), and in general `next_process` removes an entry
minimizing the weight under that ordering. -/
theorem next_process_order_amended :
    (∀ (i1 i2 i3 : Nat),
      next_process lt_amended
        [⟨i1, Priority.LOW, 0⟩, ⟨i2, Priority.HIGH, 0⟩, ⟨i3, Priority.NORMAL, 0⟩] =
        some (⟨i2, Priority.HIGH, 0⟩, [⟨i1, Priority.LOW, 0⟩, ⟨i3, Priority.NORMAL, 0⟩]) ∧
      next_process lt_amended [⟨i1, Priority.LOW, 0⟩, ⟨i3, Priority.NORMAL, 0⟩] =
        some (⟨i3, Priority.NORMAL, 0⟩, [⟨i1, Priority.LOW, 0⟩]) ∧
      next_process lt_amended [⟨i1, Priority.LOW, 0⟩] =
        some (⟨i1, Priority.LOW, 0⟩, [])) ∧
    (∀ (s : List ProcessData) (p : ProcessData) (rest : List ProcessData),
      next_process lt_amended s = some (p, rest) →
      p ∈ s ∧ ∀ q ∈ s, lt_amended q p = false) := by
  constructor
  · intro i1 i2 i3
    refine ⟨?_, ?_, ?_⟩ <;>
      simp [next_process, lt_amended, weight, priority_multiplier, priority_rank]
  · exact next_process_amended_min

/-- Witness for `next_process_order_amended` at concrete ids. -/
theorem next_process_order_amended_witness :
    next_process lt_amended
      [⟨1, Priority.LOW, 0⟩, ⟨2, Priority.HIGH, 0⟩, ⟨3, Priority.NORMAL, 0⟩] =
      some (⟨2, Priority.HIGH, 0⟩, [⟨1, Priority.LOW, 0⟩, ⟨3, Priority.NORMAL, 0⟩]) ∧
    ((⟨2, Priority.HIGH, 0⟩ : ProcessData) ∈
      [(⟨1, Priority.LOW, 0⟩ : ProcessData), ⟨2, Priority.HIGH, 0⟩, ⟨3, Priority.NORMAL, 0⟩] ∧
     ∀ q ∈ [(⟨1, Priority.LOW, 0⟩ : ProcessData), ⟨2, Priority.HIGH, 0⟩,
        ⟨3, Priority.NORMAL, 0⟩], lt_amended q ⟨2, Priority.HIGH, 0⟩ = false) :=
  ⟨(next_process_order_amended.1 1 2 3).1,
   next_process_order_amended.2 _ _ _ (next_process_order_amended.1 1 2 3).1⟩

end Sched

